import Mathlib

set_option linter.unusedVariables false
set_option linter.unreachableTactic false
set_option linter.unusedTactic false

/-!
Verification development for the K# front end: the lexical scanner
(src/KSHARP2.0.C) and the syntax analyzer (src/KSHARP_SYNTAX2.0.c).

C strings are modelled as `List Char`, the scanner's buffer as a
`List Char` with a cursor index, and machine side effects (allocation,
console/file printing) are dropped.  Every definition mirrors the control
flow of its C counterpart; loops that the C code can only exit by making
progress through the input are modelled either by well-founded recursion
on the remaining input or, for the mutually recursive parser, by an
explicit fuel argument (fuel exhaustion is recorded in a `stuck` flag and
is shown unreachable for well-formed token streams).
-/

namespace KSharp

/-- Function `lowerc` (KSHARP2.0.C line 58): convert one ASCII uppercase
letter to lowercase, leave every other character unchanged. -/
def lowerc (ch : Char) : Char :=
  if 'A' ≤ ch ∧ ch ≤ 'Z' then Char.ofNat (ch.toNat - 'A'.toNat + 'a'.toNat) else ch

/-! ### Keyword DFA (KSHARP2.0.C lines 134-315) -/

/-- Keyword list `KEYWORDS` (KSHARP2.0.C line 140). -/
def KEYWORDS : List String :=
  ["if", "else", "elseif", "for", "while", "do",
   "switch", "case", "default", "break", "continue", "return",
   "print", "input", "writeln", "readln",
   "begin", "end", "then", "of", "repeat", "until"]

def DFA_MAX_ROOTS : Nat := 64
def DFA_MAX_CHILDREN : Nat := 31

/-- Structure `DFANode` (KSHARP2.0.C line 151): a trie node holding a
character, a leaf flag, and its children (the C code stores them in a
fixed-capacity array of which the first `cSize` entries are used; the
model keeps exactly those entries as a list). -/
inductive DFANode : Type where
  | mk : Char → Bool → List DFANode → DFANode

def DFANode.val : DFANode → Char
  | .mk v _ _ => v

def DFANode.isLeaf : DFANode → Bool
  | .mk _ l _ => l

def DFANode.children : DFANode → List DFANode
  | .mk _ _ cs => cs

/-- Function `dfa_init_chain` (KSHARP2.0.C line 175): build a fresh chain
of nodes for the suffix `symbol[index..len-1]`; returns `none` exactly when
that suffix is empty (the C code returns NULL). -/
def dfa_init_chain : List Char → Option DFANode
  | [] => none
  | c :: rest =>
    match dfa_init_chain rest with
    | some child => some (.mk c rest.isEmpty [child])
    | none => some (.mk c rest.isEmpty [])

/-- Helper modelling the in-place update in `dfa_brute_LCA`'s child scan
(KSHARP2.0.C line 216): find the first list entry whose `val` equals `c`,
replace it by `f` applied to it; `none` when no entry matches. -/
def updateFirstMatch (f : DFANode → DFANode) (c : Char) : List DFANode → Option (List DFANode)
  | [] => none
  | n :: ns =>
    if n.val = c then some (f n :: ns)
    else
      match updateFirstMatch f c ns with
      | some ns2 => some (n :: ns2)
      | none => none

/-- Function `dfa_brute_LCA` (KSHARP2.0.C line 209): reuse existing states
along `symbol[index..]`, appending a fresh chain where the trie diverges;
the list argument (taken first, for structural recursion) is the remaining
suffix of the keyword being inserted. -/
def dfa_brute_LCA : List Char → DFANode → DFANode
  | [], root => .mk root.val true root.children
  | c :: rest, root =>
    match updateFirstMatch (dfa_brute_LCA rest) c root.children with
    | some cs => .mk root.val root.isLeaf cs
    | none =>
      if root.children.length < DFA_MAX_CHILDREN then
        match dfa_init_chain (c :: rest) with
        | some child => .mk root.val root.isLeaf (root.children ++ [child])
        | none => root
      else root

/-- Structure `DFA` (KSHARP2.0.C line 158): the used prefix of the root
array. -/
structure DFA : Type where
  start : List DFANode

/-- Function `dfa_add_symbol` (KSHARP2.0.C line 235): insert one keyword
into the DFA. -/
def dfa_add_symbol (head : DFA) (symbol : List Char) : DFA :=
  match symbol with
  | [] => head
  | c :: rest =>
    match updateFirstMatch (dfa_brute_LCA rest) c head.start with
    | some st => ⟨st⟩
    | none =>
      if head.start.length < DFA_MAX_ROOTS then
        match dfa_init_chain (c :: rest) with
        | some root => ⟨head.start ++ [root]⟩
        | none => ⟨head.start⟩
      else head

/-- The `while (idx < len)` walk inside `dfa_match` (KSHARP2.0.C
line 269): follow children by character; accept iff the final node is a
leaf. -/
def dfa_match_loop : List Char → DFANode → Bool
  | [], node => node.isLeaf
  | c :: rest, node =>
    match node.children.find? (fun ch => ch.val = c) with
    | none => false
    | some next => dfa_match_loop rest next

/-- Function `dfa_match` (KSHARP2.0.C line 257): root lookup on the first
character followed by the child walk; the empty string is rejected. -/
def dfa_match (head : DFA) : List Char → Bool
  | [] => false
  | c :: rest =>
    match head.start.find? (fun n => n.val = c) with
    | none => false
    | some node => dfa_match_loop rest node

/-- Function `build_keyword_dfa` (KSHARP2.0.C line 287): insert each entry
of `KEYWORDS` in order, starting from the empty root array. -/
def build_keyword_dfa : DFA :=
  KEYWORDS.foldl (fun d k => dfa_add_symbol d k.data) ⟨[]⟩

/-- Function `is_keyword` (KSHARP2.0.C line 312): match against the
keyword DFA (the C code builds the DFA once on first use; the model's
`build_keyword_dfa` is that built value). -/
def is_keyword (s : List Char) : Bool := dfa_match build_keyword_dfa s

/-! Specification apparatus for the trie: the language accepted below a
node, and a well-formedness predicate (children of one node carry pairwise
distinct characters). -/

mutual

/-- Language of suffixes accepted strictly below a node (the node's own
character has already been consumed). -/
def nodeLang : DFANode → List (List Char)
  | .mk _ l cs => (if l then [[]] else []) ++ childLang cs

/-- Union over a child list of each child's language, each word prefixed
by that child's character. -/
def childLang : List DFANode → List (List Char)
  | [] => []
  | c :: cs => (nodeLang c).map (fun w => c.val :: w) ++ childLang cs

end

/-- Pairwise distinctness of the characters of a node list. -/
def valsDistinct : List DFANode → Bool
  | [] => true
  | n :: ns => ns.all (fun m => m.val != n.val) && valsDistinct ns

mutual

/-- Well-formedness of a trie node: distinct child characters, recursively. -/
def nodeWF : DFANode → Bool
  | .mk _ _ cs => valsDistinct cs && childrenWF cs

/-- Well-formedness of every node in a list. -/
def childrenWF : List DFANode → Bool
  | [] => true
  | c :: cs => nodeWF c && childrenWF cs

end

/-- Language of a whole DFA: first characters come from the roots. -/
def dfaLang (d : DFA) : List (List Char) :=
  d.start.flatMap (fun r => (nodeLang r).map (fun w => r.val :: w))

/-- Well-formedness of a DFA: distinct root characters, well-formed roots. -/
def dfaWF (d : DFA) : Bool :=
  valsDistinct d.start && childrenWF d.start

/-! ### Word classifiers (KSHARP2.0.C lines 317-368) -/

/-- Function `is_type` (KSHARP2.0.C line 320): switch on the lowercased
first character, then compare the remaining characters and the length
against int/float/char/bool/void.  The C code is never called with an
empty word; the model returns false there. -/
def is_type (s : List Char) : Bool :=
  match s with
  | [] => false
  | c0 :: rest =>
    if lowerc c0 = 'i' then rest == ['n', 't']
    else if lowerc c0 = 'f' then rest == ['l', 'o', 'a', 't']
    else if lowerc c0 = 'c' then rest == ['h', 'a', 'r']
    else if lowerc c0 = 'b' then rest == ['o', 'o', 'l']
    else if lowerc c0 = 'v' then rest == ['o', 'i', 'd']
    else false

/-- Function `is_noise` (KSHARP2.0.C line 334): switch on the lowercased
first character; noise words are please, then, to, do, end, begin, of,
and, from. -/
def is_noise (s : List Char) : Bool :=
  match s with
  | [] => false
  | c0 :: rest =>
    if lowerc c0 = 'p' then rest == ['l', 'e', 'a', 's', 'e']
    else if lowerc c0 = 't' then rest == ['h', 'e', 'n'] || rest == ['o']
    else if lowerc c0 = 'd' then rest == ['o']
    else if lowerc c0 = 'e' then rest == ['n', 'd']
    else if lowerc c0 = 'b' then rest == ['e', 'g', 'i', 'n']
    else if lowerc c0 = 'o' then rest == ['f']
    else if lowerc c0 = 'a' then rest == ['n', 'd']
    else if lowerc c0 = 'f' then rest == ['r', 'o', 'm']
    else false

/-- Function `is_bool_lit` (KSHARP2.0.C line 353): 1 for "true", 0 for
"false", -1 otherwise; only the first character goes through `lowerc`. -/
def is_bool_lit (s : List Char) : Int :=
  match s with
  | [a, b, c, d] =>
    if lowerc a == 't' && b == 'r' && c == 'u' && d == 'e' then 1 else -1
  | [a, b, c, d, e] =>
    if lowerc a == 'f' && b == 'a' && c == 'l' && d == 's' && e == 'e' then 0 else -1
  | _ => -1

/-- Function `is_word_op` (KSHARP2.0.C line 361): DIV or MOD,
case-insensitive on all three characters; the returned option models the
`out_extra` parameter being set exactly when the function returns 1. -/
def is_word_op (s : List Char) : Option (List Char) :=
  match s with
  | [a, b, c] =>
    if lowerc a == 'd' && lowerc b == 'i' && lowerc c == 'v' then some "DIV".data
    else if lowerc a == 'm' && lowerc b == 'o' && lowerc c == 'd' then some "MOD".data
    else none
  | _ => none

/-! ### Lexer state and scanners (KSHARP2.0.C lines 6-132, 370-587) -/

/-- Enum `TokenType` (KSHARP2.0.C line 8). -/
inductive TokenType : Type where
  | identifier
  | keyword
  | reserved_type
  | const_int
  | const_float
  | const_char
  | const_bool
  | const_string
  | op_arith
  | op_rel
  | op_logic
  | assign
  | delim
  | bracket
  | comment
  | noise
  | unknown
  | eof
deriving DecidableEq

/-- Structure `Token` (KSHARP2.0.C line 31); the C code's NULL lexeme and
NULL extra are the empty list and `none`. -/
structure Token : Type where
  type : TokenType
  lexeme : List Char
  line : Nat
  col : Nat
  extra : Option (List Char)
deriving DecidableEq

/-- Structure `Lexer` (KSHARP2.0.C line 75); the C `len` field is always
the buffer length, so the model drops it. -/
structure Lexer : Type where
  buf : List Char
  pos : Nat
  line : Nat
  col : Nat
deriving DecidableEq

/-- Function `peek` (KSHARP2.0.C line 85); `none` models the EOF
sentinel. -/
def peek (L : Lexer) : Option Char := L.buf[L.pos]?

/-- Function `advance` (KSHARP2.0.C line 91): consume one character,
updating line/column; returns the consumed character as in C. -/
def advance (L : Lexer) : Option Char × Lexer :=
  match L.buf[L.pos]? with
  | none => (none, L)
  | some c =>
    if c = '\n' then (some c, { L with pos := L.pos + 1, line := L.line + 1, col := 1 })
    else (some c, { L with pos := L.pos + 1, col := L.col + 1 })

/-- Function `match` (KSHARP2.0.C line 105), renamed since `match` is a
Lean keyword: consume the next character exactly when it equals `ch`. -/
def matchc (L : Lexer) (ch : Char) : Bool × Lexer :=
  if peek L = some ch then (true, (advance L).2) else (false, L)

/-- One `while (p(peek(L))) advance(L);` loop, with fuel; the scanner's
character-run loops all have this shape.  Fuel `buf.length - pos` is
exactly enough: when it reaches zero the cursor is at the end of the
buffer and the C loop would stop as well. -/
def skipWhileF : Nat → (Char → Bool) → Lexer → Lexer
  | 0, _, L => L
  | n + 1, p, L =>
    match peek L with
    | some c => if p c then skipWhileF n p (advance L).2 else L
    | none => L

/-- Wrapper supplying the sufficient fuel for `skipWhileF`. -/
def skipWhile (p : Char → Bool) (L : Lexer) : Lexer :=
  skipWhileF (L.buf.length - L.pos) p L

/-- Function `skip_ws` (KSHARP2.0.C line 112). -/
def skip_ws (L : Lexer) : Lexer :=
  skipWhile (fun c => c = ' ' || c = '\t' || c = '\r' || c = '\n') L

/-- Function `make` (KSHARP2.0.C line 124): build a token recording the
current line/column; `dup_n s n` copies `n` bytes of `s`, modelled by
`s.take n` (for `make(..., "<bad_float>", 10, ...)` this drops the final
character exactly as the C byte copy does). -/
def make (L : Lexer) (ty : TokenType) (s : List Char) (n : Nat) (extra : Option (List Char)) :
    Token :=
  { type := ty, lexeme := s.take n, line := L.line, col := L.col, extra := extra }

/-- `isdigit` applied to a `peek` result (EOF is not a digit). -/
def isdigit : Option Char → Bool
  | some c => c.isDigit
  | none => false

/-- The scan loop of `scan_string` (KSHARP2.0.C line 380), with fuel;
`p` is the buffer index where the string payload starts.  Fuel zero
coincides with the cursor having reached the end of the buffer, where the
C loop reports an unterminated string. -/
def scan_string_loopF : Nat → Nat → Nat → Lexer → Token × Lexer
  | 0, _, _, L => (make L .unknown "<unterminated_string>".data 22 none, L)
  | n + 1, p, col0, L =>
    match peek L with
    | none => (make L .unknown "<unterminated_string>".data 22 none, L)
    | some c =>
      if c = '\\' then
        let L1 := (advance L).2
        let L2 := match peek L1 with
          | some _ => (advance L1).2
          | none => L1
        scan_string_loopF n p col0 L2
      else if c = '"' then
        let nn := L.pos - p
        let t := make L .const_string (L.buf.drop p) nn none
        let L1 := (advance L).2
        ({ t with col := col0 }, L1)
      else if c = '\n' then (make L .unknown "<unterminated_string>".data 22 none, L)
      else scan_string_loopF n p col0 (advance L).2

/-- Function `scan_string` (KSHARP2.0.C line 375). -/
def scan_string (L : Lexer) : Token × Lexer :=
  let col0 := L.col
  let L1 := (advance L).2
  scan_string_loopF (L1.buf.length - L1.pos) L1.pos col0 L1

/-- Function `scan_char` (KSHARP2.0.C line 402): the payload is not
stored; the lexeme is the fixed placeholder. -/
def scan_char (L : Lexer) : Token × Lexer :=
  let col0 := L.col
  let L1 := (advance L).2
  let r := advance L1
  let L3 := if r.1 = some '\\' then (advance r.2).2 else r.2
  if peek L3 = some '\'' then
    let L4 := (advance L3).2
    ({ make L4 .const_char "<char>".data 6 none with col := col0 }, L4)
  else
    (make L3 .unknown "<unterminated_char>".data 20 none, L3)

/-- Function `scan_number` (KSHARP2.0.C line 419). -/
def scan_number (L : Lexer) : Token × Lexer :=
  let start := L.pos
  let col0 := L.col
  let L1 := skipWhile (fun c => c.isDigit) L
  if peek L1 = some '.' then
    let L2 := (advance L1).2
    if isdigit (peek L2) = false then
      (make L2 .unknown "<bad_float>".data 10 none, L2)
    else
      let L3 := skipWhile (fun c => c.isDigit) L2
      let n := L3.pos - start
      ({ make L3 .const_float (L3.buf.drop start) n none with col := col0 }, L3)
  else
    let n := L1.pos - start
    ({ make L1 .const_int (L1.buf.drop start) n none with col := col0 }, L1)

/-- Function `scan_identifier_or_keyword` (KSHARP2.0.C line 442):
consume a word, then classify in the fixed priority order
bool → word-op → type → keyword → noise → identifier. -/
def scan_identifier_or_keyword (L : Lexer) : Token × Lexer :=
  let start := L.pos
  let col0 := L.col
  let L1 := (advance L).2
  let L2 := skipWhile (fun c => c.isAlphanum || c = '_') L1
  let n := L2.pos - start
  let s := L2.buf.drop start
  let w := s.take n
  if is_bool_lit w != -1 then
    ({ make L2 .const_bool s n none with col := col0 }, L2)
  else
    match is_word_op w with
    | some extra => ({ make L2 .op_arith s n (some extra) with col := col0 }, L2)
    | none =>
      if is_type w then ({ make L2 .reserved_type s n none with col := col0 }, L2)
      else if is_keyword w then ({ make L2 .keyword s n none with col := col0 }, L2)
      else if is_noise w then ({ make L2 .noise s n none with col := col0 }, L2)
      else ({ make L2 .identifier s n none with col := col0 }, L2)

/-- The block-comment loop of `scan_slash_comment_or_op` (KSHARP2.0.C
line 503), with fuel; `prev` is the previously consumed character (the C
code initializes it to 0, modelled as `none`).  Fuel zero coincides with
the cursor being at the end of the buffer, where the C loop reports an
unterminated comment. -/
def scan_block_commentF : Nat → Option Char → Nat → Lexer → Token × Lexer
  | 0, _, _, L => (make L .unknown "<unterminated_comment>".data 22 none, L)
  | n + 1, prev, col0, L =>
    match advance L with
    | (none, L1) => (make L1 .unknown "<unterminated_comment>".data 22 none, L1)
    | (some cur, L1) =>
      if prev = some '*' ∧ cur = '/' then
        ({ make L1 .comment "/* */".data 5 none with col := col0 }, L1)
      else scan_block_commentF n (some cur) col0 L1

/-- Function `scan_slash_comment_or_op` (KSHARP2.0.C line 494). -/
def scan_slash_comment_or_op (L : Lexer) : Token × Lexer :=
  let col0 := L.col
  let r1 := matchc L '/'
  if r1.1 then
    let r2 := matchc r1.2 '/'
    if r2.1 then
      let L3 := skipWhile (fun c => c ≠ '\n') r2.2
      ({ make L3 .comment "//".data 2 none with col := col0 }, L3)
    else
      let r3 := matchc r1.2 '*'
      if r3.1 then scan_block_commentF (r3.2.buf.length - r3.2.pos) none col0 r3.2
      else ({ make r1.2 .op_arith "/".data 1 (some "/".data) with col := col0 }, r1.2)
  else
    match advance L with
    | (some c, L1) => (make L1 .unknown [c] 1 none, L1)
    | (none, L1) => (make L1 .unknown [] 1 none, L1)

/-- Function `scan_operator` (KSHARP2.0.C line 528): two-character
operators first, then single-character ones, else unknown.  The C checks
are grouped here by first character, which is equivalent since the
two-character operators have pairwise distinct first characters. -/
def scan_operator (L : Lexer) : Token × Lexer :=
  let col0 := L.col
  match advance L with
  | (none, L1) => (make L1 .unknown [] 1 none, L1)
  | (some c, L1) =>
    if c = '=' then
      let r := matchc L1 '='
      if r.1 then ({ make r.2 .op_rel "==".data 2 (some "==".data) with col := col0 }, r.2)
      else ({ make L1 .assign "=".data 1 (some "=".data) with col := col0 }, L1)
    else if c = '!' then
      let r := matchc L1 '='
      if r.1 then ({ make r.2 .op_rel "!=".data 2 (some "!=".data) with col := col0 }, r.2)
      else ({ make L1 .op_logic "!".data 1 (some "!".data) with col := col0 }, L1)
    else if c = '<' then
      let r := matchc L1 '='
      if r.1 then ({ make r.2 .op_rel "<=".data 2 (some "<=".data) with col := col0 }, r.2)
      else ({ make L1 .op_rel "<".data 1 (some "<".data) with col := col0 }, L1)
    else if c = '>' then
      let r := matchc L1 '='
      if r.1 then ({ make r.2 .op_rel ">=".data 2 (some ">=".data) with col := col0 }, r.2)
      else ({ make L1 .op_rel ">".data 1 (some ">".data) with col := col0 }, L1)
    else if c = '&' then
      let r := matchc L1 '&'
      if r.1 then ({ make r.2 .op_logic "&&".data 2 (some "&&".data) with col := col0 }, r.2)
      else (make L1 .unknown [c] 1 none, L1)
    else if c = '|' then
      let r := matchc L1 '|'
      if r.1 then ({ make r.2 .op_logic "||".data 2 (some "||".data) with col := col0 }, r.2)
      else (make L1 .unknown [c] 1 none, L1)
    else if c = '*' then
      let r := matchc L1 '*'
      if r.1 then ({ make r.2 .op_arith "**".data 2 (some "**".data) with col := col0 }, r.2)
      else ({ make L1 .op_arith [c] 1 (some [c]) with col := col0 }, L1)
    else if c = '+' || c = '-' || c = '%' || c = '/' then
      ({ make L1 .op_arith [c] 1 (some [c]) with col := col0 }, L1)
    else
      (make L1 .unknown [c] 1 none, L1)

/-- Function `is_delim` (KSHARP2.0.C line 557). -/
def is_delim (c : Char) : Bool := c = ';' || c = ',' || c = ':' || c = '.'

/-- Function `is_bracket` (KSHARP2.0.C line 558). -/
def is_bracket (c : Char) : Bool :=
  c = '(' || c = ')' || c = '{' || c = '}' || c = '[' || c = ']'

/-- Function `next_token` (KSHARP2.0.C line 562): skip whitespace and
dispatch on the next character. -/
def next_token (L0 : Lexer) : Token × Lexer :=
  let L := skip_ws L0
  match peek L with
  | none => (make L .eof [] 0 none, L)
  | some c =>
    if is_delim c then
      let L1 := (advance L).2
      (make L1 .delim [c] 1 (some [c]), L1)
    else if is_bracket c then
      let L1 := (advance L).2
      (make L1 .bracket [c] 1 (some [c]), L1)
    else if c.isAlpha || c = '_' then scan_identifier_or_keyword L
    else if c.isDigit then scan_number L
    else if c = '"' then scan_string L
    else if c = '\'' then scan_char L
    else if c = '/' then scan_slash_comment_or_op L
    else if c = '*' || c = '+' || c = '-' || c = '%' || c = '=' || c = '<' ||
            c = '>' || c = '!' || c = '&' || c = '|' then scan_operator L
    else
      let L1 := (advance L).2
      (make L1 .unknown [c] 1 none, L1)

/-- The scanning loop of `main` (KSHARP2.0.C line 709), with fuel: call
`next_token` until an eof token appears, collecting the tokens. -/
def tokenizeF : Nat → Lexer → List Token
  | 0, _ => []
  | n + 1, L =>
    let r := next_token L
    if r.1.type = .eof then [r.1] else r.1 :: tokenizeF n r.2

/-- Scanning a whole buffer; the fuel `buf.length - pos + 1` is shown
sufficient in the termination theorem (each non-eof token consumes at
least one character, and the eof iteration takes one more step). -/
def tokenize (L : Lexer) : List Token :=
  tokenizeF (L.buf.length - L.pos + 1) L

/-- A lexer state at the start of a buffer (KSHARP2.0.C line 695). -/
def mkLexer (s : List Char) : Lexer := { buf := s, pos := 0, line := 1, col := 1 }

/-! ### Symbol-table output (KSHARP2.0.C lines 589-640, 706-720) -/

/-- Function `tname` (KSHARP2.0.C line 594): display label for a token
type. -/
def tname (t : TokenType) : List Char :=
  match t with
  | .identifier => "identifier".data
  | .keyword => "keyword".data
  | .reserved_type => "type".data
  | .const_int => "const_int".data
  | .const_float => "const_float".data
  | .const_char => "const_char".data
  | .const_string => "const_string".data
  | .const_bool => "const_bool".data
  | .op_arith => "operator".data
  | .op_rel => "operator".data
  | .op_logic => "operator".data
  | .assign => "operator".data
  | .delim => "punctuator".data
  | .bracket => "punctuator".data
  | .comment => "comment".data
  | .noise => "noise".data
  | .unknown => "unknown".data
  | .eof => "eof".data

/-- Left-justified minimum-width field, as printf's `%-Ns`. -/
def padRight (s : List Char) (w : Nat) : List Char :=
  s ++ List.replicate (w - s.length) ' '

/-- The clipping in `write_row` (KSHARP2.0.C line 632): lexemes longer
than 20 characters keep their first 19 followed by a dot. -/
def clip20 (lex : List Char) : List Char :=
  if lex.length > 20 then lex.take 19 ++ ['.'] else lex

/-- One data row as printed by `write_row` (KSHARP2.0.C line 629):
`| %-20s | %-16s |`. -/
def write_row_line (lex tok : List Char) : List Char :=
  ['|', ' '] ++ padRight (clip20 lex) 20 ++ [' ', '|', ' '] ++ padRight tok 16 ++ [' ', '|']

/-- The border line printed by `write_head`/`write_foot` (KSHARP2.0.C
line 622). -/
def borderLine : List Char :=
  "+----------------------+------------------+".data

/-- The text shown for a token in the table (KSHARP2.0.C line 711):
the extra tag when present and nonempty, else the lexeme. -/
def shown (t : Token) : List Char :=
  match t.extra with
  | some e => if e.isEmpty then t.lexeme else e
  | none => t.lexeme

/-- The whole symbol table as a list of text lines: header
(`write_head`, KSHARP2.0.C line 620), one row per token (`write_row`),
and the closing border (`write_foot`). -/
def serialize_table (src : List Char) (ts : List Token) : List (List Char) :=
  ["Source: ".data ++ src, borderLine, write_row_line "Lexeme".data "Token".data, borderLine]
    ++ ts.map (fun t => write_row_line (shown t) (tname t.type))
    ++ [borderLine]

end KSharp

namespace KSharpParse

/-! ### Embedding of the syntax analyzer (src/KSHARP_SYNTAX2.0.c) -/

def MAX_LEXEME : Nat := 128
def MAX_TOKENS : Nat := 2000

/-- Function `str_eq` (KSHARP_SYNTAX2.0.c line 19). -/
def str_eq : List Char → List Char → Bool
  | [], [] => true
  | [], _ :: _ => false
  | _ :: _, [] => false
  | a :: as, b :: bs => if a = b then str_eq as bs else false

/-- Function `str_starts_with` (KSHARP_SYNTAX2.0.c line 31); arguments in
source order: the scanned string first, then the candidate head. -/
def str_starts_with : List Char → List Char → Bool
  | _, [] => true
  | [], _ :: _ => false
  | c :: s, p :: ps => if c = p then str_starts_with s ps else false

/-- The outer scan loop of `str_contains` (KSHARP_SYNTAX2.0.c line 50):
try every suffix of `s`. -/
def str_contains_go (sub : List Char) : List Char → Bool
  | [] => false
  | c :: rest => str_starts_with (c :: rest) sub || str_contains_go sub rest

/-- Function `str_contains` (KSHARP_SYNTAX2.0.c line 45). -/
def str_contains (s sub : List Char) : Bool :=
  if sub.isEmpty then true else str_contains_go sub s

/-- Enum `ParserTokKind` (KSHARP_SYNTAX2.0.c line 67). -/
inductive ParserTokKind : Type where
  | PT_KEYWORD
  | PT_IDENTIFIER
  | PT_TYPE
  | PT_INTCONST
  | PT_FLOATCONST
  | PT_CHARCONST
  | PT_BOOLCONST
  | PT_OPERATOR
  | PT_SYMBOL
  | PT_COMMENT
  | PT_NOISE
  | PT_EOF
  | PT_UNKNOWN
deriving DecidableEq

/-- Structure `ParserToken` (KSHARP_SYNTAX2.0.c line 86). -/
structure ParserToken : Type where
  kind : ParserTokKind
  lexeme : List Char
deriving DecidableEq

/-- C's `isspace` on the default locale over ASCII. -/
def c_isspace (c : Char) : Bool :=
  c = ' ' || c = '\t' || c = '\n' || c = '\x0b' || c = '\x0c' || c = '\r'

/-- Function `trim` (KSHARP_SYNTAX2.0.c line 162): strip the right end
(newline, carriage return, whitespace), then shift off leading
whitespace. -/
def trim (s : List Char) : List Char :=
  let r := (s.reverse.dropWhile (fun c => c = '\n' || c = '\r' || c_isspace c)).reverse
  r.dropWhile c_isspace

/-- Function `map_kind` (KSHARP_SYNTAX2.0.c line 195). -/
def map_kind (kind : List Char) : ParserTokKind :=
  if str_eq kind "keyword".data then .PT_KEYWORD
  else if str_eq kind "identifier".data then .PT_IDENTIFIER
  else if str_eq kind "type".data then .PT_TYPE
  else if str_eq kind "const_int".data then .PT_INTCONST
  else if str_eq kind "const_float".data then .PT_FLOATCONST
  else if str_eq kind "const_char".data then .PT_CHARCONST
  else if str_eq kind "const_bool".data then .PT_BOOLCONST
  else if str_eq kind "operator".data then .PT_OPERATOR
  else if str_eq kind "punctuator".data then .PT_SYMBOL
  else if str_eq kind "comment".data then .PT_COMMENT
  else if str_eq kind "noise".data then .PT_NOISE
  else if str_eq kind "eof".data then .PT_EOF
  else .PT_UNKNOWN

/-- The `sscanf(line, "| %127[^|]| %127[^|]|", ...)` call
(KSHARP_SYNTAX2.0.c line 257): literal bar, whitespace skip, a nonempty
run of at most 127 non-bar characters, literal bar, whitespace skip,
another such run; `none` when fewer than two conversions succeed (the
trailing literal bar need not match for sscanf to return 2). -/
def sscanf_row (line : List Char) : Option (List Char × List Char) :=
  match line with
  | '|' :: r1 =>
    let r1' := r1.dropWhile c_isspace
    let f1 := (r1'.takeWhile (fun c => c ≠ '|')).take 127
    if f1.isEmpty then none
    else
      match r1'.drop f1.length with
      | '|' :: r2 =>
        let r2' := r2.dropWhile c_isspace
        let f2 := (r2'.takeWhile (fun c => c ≠ '|')).take 127
        if f2.isEmpty then none else some (f1, f2)
      | _ => none
  | _ => none

/-- One iteration of the `while (fgets(...))` loop of
`load_tokens_from_symbol_table` (KSHARP_SYNTAX2.0.c line 230): skip
non-data lines, parse a data row, store it while below capacity. -/
def processLine (toks : List ParserToken) (line0 : List Char) : List ParserToken :=
  let line := trim line0
  if line.isEmpty then toks
  else if str_starts_with line "Source:".data then toks
  else if line.head? = some '+' || line.head? = some '-' then toks
  else if str_contains line "Lexeme".data && str_contains line "Token".data then toks
  else if line.head? ≠ some '|' then toks
  else
    match sscanf_row line with
    | none => toks
    | some r =>
      let lex := trim r.1
      let pk := map_kind (trim r.2)
      if toks.length < MAX_TOKENS then
        toks ++ [{ kind := pk, lexeme := lex.take (MAX_LEXEME - 1) }]
      else toks

/-- The synthetic end-of-stream token appended by the loader
(KSHARP_SYNTAX2.0.c line 283). -/
def eofTok : ParserToken := { kind := .PT_EOF, lexeme := "EOF".data }

/-- Function `load_tokens_from_symbol_table` (KSHARP_SYNTAX2.0.c
line 217), taking the file as its list of text lines: fold the row loop
over the lines, then append a synthetic eof token when the stream is
empty or does not end with one (the C code performs this final store
without a capacity check). -/
def load_tokens_from_symbol_table (lines : List (List Char)) : List ParserToken :=
  let toks := lines.foldl processLine []
  if toks.isEmpty || (toks.getLast?.map ParserToken.kind) ≠ some .PT_EOF then
    toks ++ [eofTok]
  else toks

/-! ### Parser state and recursive descent (KSHARP_SYNTAX2.0.c
lines 91-156, 294-882).

The token array `g_tokens`/`g_tok_count` is written only by the loader,
so it is a fixed parameter here; the mutable globals `g_tok_index` and
`g_error` form the state.  The parser's loops terminate only because
every iteration moves the index forward, which holds for streams ending
in an eof token; the model therefore uses an explicit fuel argument,
decremented on every nested call, and records fuel exhaustion in a
`stuck` flag (shown unreachable, with sufficient fuel, for well-formed
streams).  The XML-trace printing does not affect parser state and is
dropped. -/

structure PState : Type where
  idx : Nat
  err : Bool
  stuck : Bool
deriving DecidableEq

section
variable (toks : List ParserToken)

/-- Function `cur_tok` (KSHARP_SYNTAX2.0.c line 143): the token at the
current index, or the last token once the index passes the end.  With an
empty stream the C code reads out of bounds; the model returns a default
token there. -/
def cur_tok (s : PState) : ParserToken :=
  if s.idx ≥ toks.length then (toks.getLast?).getD { kind := .PT_UNKNOWN, lexeme := [] }
  else (toks.get? s.idx).getD { kind := .PT_UNKNOWN, lexeme := [] }

/-- Function `next_tok` (KSHARP_SYNTAX2.0.c line 152): advance unless
already at the last token. -/
def next_tok (s : PState) : PState :=
  if s.idx < toks.length - 1 then { s with idx := s.idx + 1 } else s

/-- Function `syntax_error` (KSHARP_SYNTAX2.0.c line 301): record the
error (the printed diagnostic is dropped). -/
def syntax_error (s : PState) : PState := { s with err := true }

/-- Function `panic_recover` (KSHARP_SYNTAX2.0.c line 316), with fuel:
skip tokens until a `;` or `}` symbol (consumed) or eof (not consumed). -/
def panic_recover : Nat → PState → PState
  | 0, s => { s with stuck := true }
  | n + 1, s =>
    if (cur_tok toks s).kind ≠ .PT_EOF then
      if (cur_tok toks s).kind = .PT_SYMBOL ∧
          (str_eq (cur_tok toks s).lexeme ";".data || str_eq (cur_tok toks s).lexeme "\x7d".data) then
        next_tok toks s
      else panic_recover n (next_tok toks s)
    else s

/-- Function `accept_symbol` (KSHARP_SYNTAX2.0.c line 336). -/
def accept_symbol (sym : List Char) (s : PState) : Bool × PState :=
  if (cur_tok toks s).kind = .PT_SYMBOL ∧ str_eq (cur_tok toks s).lexeme sym then
    (true, next_tok toks s)
  else (false, s)

/-- Function `expect_symbol` (KSHARP_SYNTAX2.0.c line 348). -/
def expect_symbol (n : Nat) (sym : List Char) (s : PState) : PState :=
  let r := accept_symbol toks sym s
  if r.1 then r.2 else panic_recover toks n (syntax_error r.2)

/-- Function `is_relop` (KSHARP_SYNTAX2.0.c line 735). -/
def is_relop (op : List Char) : Bool :=
  str_eq op "==".data || str_eq op "!=".data || str_eq op "<".data ||
  str_eq op "<=".data || str_eq op ">".data || str_eq op ">=".data

mutual

/-- Function `parse_factor` (KSHARP_SYNTAX2.0.c line 808). -/
def parse_factor : Nat → PState → PState
  | 0, s => { s with stuck := true }
  | n + 1, s =>
    let t := cur_tok toks s
    if t.kind = .PT_SYMBOL ∧ str_eq t.lexeme "(".data then
      let s1 := next_tok toks s
      let s2 := parse_expression n s1
      if (cur_tok toks s2).kind = .PT_SYMBOL ∧ str_eq (cur_tok toks s2).lexeme ")".data then
        next_tok toks s2
      else syntax_error s2
    else if t.kind = .PT_IDENTIFIER then next_tok toks s
    else if t.kind = .PT_INTCONST ∨ t.kind = .PT_FLOATCONST ∨
        t.kind = .PT_CHARCONST ∨ t.kind = .PT_BOOLCONST then
      next_tok toks s
    else panic_recover toks n (syntax_error s)

/-- The `while` chain of `parse_term` (KSHARP_SYNTAX2.0.c line 791). -/
def parse_term_ops : Nat → PState → PState
  | 0, s => { s with stuck := true }
  | n + 1, s =>
    if (cur_tok toks s).kind = .PT_OPERATOR ∧
        (str_eq (cur_tok toks s).lexeme "*".data || str_eq (cur_tok toks s).lexeme "/".data ||
         str_eq (cur_tok toks s).lexeme "%".data || str_eq (cur_tok toks s).lexeme "&&".data) then
      let s1 := next_tok toks s
      let s2 := parse_factor n s1
      parse_term_ops n s2
    else s

/-- Function `parse_term` (KSHARP_SYNTAX2.0.c line 785). -/
def parse_term : Nat → PState → PState
  | 0, s => { s with stuck := true }
  | n + 1, s => parse_term_ops n (parse_factor n s)

/-- The `while` chain of `parse_simple_expr` (KSHARP_SYNTAX2.0.c
line 770). -/
def parse_simple_ops : Nat → PState → PState
  | 0, s => { s with stuck := true }
  | n + 1, s =>
    if (cur_tok toks s).kind = .PT_OPERATOR ∧
        (str_eq (cur_tok toks s).lexeme "+".data || str_eq (cur_tok toks s).lexeme "-".data ||
         str_eq (cur_tok toks s).lexeme "||".data) then
      let s1 := next_tok toks s
      let s2 := parse_term n s1
      parse_simple_ops n s2
    else s

/-- Function `parse_simple_expr` (KSHARP_SYNTAX2.0.c line 764). -/
def parse_simple_expr : Nat → PState → PState
  | 0, s => { s with stuck := true }
  | n + 1, s => parse_simple_ops n (parse_term n s)

/-- Function `parse_expression` (KSHARP_SYNTAX2.0.c line 746). -/
def parse_expression : Nat → PState → PState
  | 0, s => { s with stuck := true }
  | n + 1, s =>
    let s1 := parse_simple_expr n s
    if (cur_tok toks s1).kind = .PT_OPERATOR ∧ is_relop (cur_tok toks s1).lexeme then
      let s2 := next_tok toks s1
      parse_simple_expr n s2
    else s1

/-- Function `parse_assign_no_semicolon` (KSHARP_SYNTAX2.0.c line 556). -/
def parse_assign_no_semicolon : Nat → PState → PState
  | 0, s => { s with stuck := true }
  | n + 1, s =>
    if (cur_tok toks s).kind = .PT_IDENTIFIER then
      let s1 := next_tok toks s
      if (cur_tok toks s1).kind = .PT_OPERATOR ∧ str_eq (cur_tok toks s1).lexeme "=".data then
        let s2 := next_tok toks s1
        parse_expression n s2
      else syntax_error s1
    else syntax_error s

/-- Function `parse_assign_stmt` (KSHARP_SYNTAX2.0.c line 519): note that
its two leading checks report errors without returning early. -/
def parse_assign_stmt : Nat → PState → PState
  | 0, s => { s with stuck := true }
  | n + 1, s =>
    let s1 := if (cur_tok toks s).kind = .PT_IDENTIFIER then next_tok toks s else syntax_error s
    let s2 :=
      if (cur_tok toks s1).kind = .PT_OPERATOR ∧ str_eq (cur_tok toks s1).lexeme "=".data then
        next_tok toks s1
      else syntax_error s1
    let s3 := parse_expression n s2
    expect_symbol toks n ";".data s3

/-- Function `parse_decl_stmt` (KSHARP_SYNTAX2.0.c line 448); the caller
has already checked that the current token is a type. -/
def parse_decl_stmt : Nat → PState → PState
  | 0, s => { s with stuck := true }
  | n + 1, s =>
    let s1 := next_tok toks s
    let s2 := if (cur_tok toks s1).kind = .PT_IDENTIFIER then next_tok toks s1 else syntax_error s1
    expect_symbol toks n ";".data s2

/-- Function `parse_input_stmt` (KSHARP_SYNTAX2.0.c line 472). -/
def parse_input_stmt : Nat → PState → PState
  | 0, s => { s with stuck := true }
  | n + 1, s =>
    let s1 := next_tok toks s
    let s2 := if (cur_tok toks s1).kind = .PT_IDENTIFIER then next_tok toks s1 else syntax_error s1
    expect_symbol toks n ";".data s2

/-- Function `parse_print_stmt` (KSHARP_SYNTAX2.0.c line 496). -/
def parse_print_stmt : Nat → PState → PState
  | 0, s => { s with stuck := true }
  | n + 1, s =>
    let s1 := next_tok toks s
    let s2 := parse_expression n s1
    expect_symbol toks n ";".data s2

/-- The `while` loop inside the braced branch of `parse_block`
(KSHARP_SYNTAX2.0.c line 600). -/
def parse_block_stmts : Nat → PState → PState
  | 0, s => { s with stuck := true }
  | n + 1, s =>
    if (cur_tok toks s).kind ≠ .PT_EOF ∧
        ¬((cur_tok toks s).kind = .PT_SYMBOL ∧ str_eq (cur_tok toks s).lexeme "\x7d".data) then
      let s1 := parse_statement n s
      parse_block_stmts n s1
    else s

/-- Function `parse_block` (KSHARP_SYNTAX2.0.c line 591). -/
def parse_block : Nat → PState → PState
  | 0, s => { s with stuck := true }
  | n + 1, s =>
    if (cur_tok toks s).kind = .PT_SYMBOL ∧ str_eq (cur_tok toks s).lexeme "\x7b".data then
      let s1 := next_tok toks s
      let s2 := parse_block_stmts n s1
      expect_symbol toks n "\x7d".data s2
    else parse_statement n s

/-- Function `parse_if_stmt` (KSHARP_SYNTAX2.0.c line 621). -/
def parse_if_stmt : Nat → PState → PState
  | 0, s => { s with stuck := true }
  | n + 1, s =>
    let s1 := next_tok toks s
    let s2 := expect_symbol toks n "(".data s1
    let s3 := parse_expression n s2
    let s4 := expect_symbol toks n ")".data s3
    let s5 := parse_block n s4
    if (cur_tok toks s5).kind = .PT_KEYWORD ∧ str_eq (cur_tok toks s5).lexeme "else".data then
      let s6 := next_tok toks s5
      parse_block n s6
    else s5

/-- Function `parse_while_stmt` (KSHARP_SYNTAX2.0.c line 657). -/
def parse_while_stmt : Nat → PState → PState
  | 0, s => { s with stuck := true }
  | n + 1, s =>
    let s1 := next_tok toks s
    let s2 := expect_symbol toks n "(".data s1
    let s3 := parse_expression n s2
    let s4 := expect_symbol toks n ")".data s3
    parse_block n s4

/-- Function `parse_for_stmt` (KSHARP_SYNTAX2.0.c line 687). -/
def parse_for_stmt : Nat → PState → PState
  | 0, s => { s with stuck := true }
  | n + 1, s =>
    let s1 := next_tok toks s
    let s2 := expect_symbol toks n "(".data s1
    let s3 := parse_assign_stmt n s2
    let s4 := parse_expression n s3
    let s5 := expect_symbol toks n ";".data s4
    let s6 := parse_assign_no_semicolon n s5
    let s7 := expect_symbol toks n ")".data s6
    parse_block n s7

/-- Function `parse_statement` (KSHARP_SYNTAX2.0.c line 399). -/
def parse_statement : Nat → PState → PState
  | 0, s => { s with stuck := true }
  | n + 1, s =>
    let t := cur_tok toks s
    if t.kind = .PT_TYPE then parse_decl_stmt n s
    else if t.kind = .PT_KEYWORD ∧ str_eq t.lexeme "input".data then parse_input_stmt n s
    else if t.kind = .PT_KEYWORD ∧
        (str_eq t.lexeme "print".data || str_eq t.lexeme "writeln".data) then
      parse_print_stmt n s
    else if t.kind = .PT_KEYWORD ∧ str_eq t.lexeme "if".data then parse_if_stmt n s
    else if t.kind = .PT_KEYWORD ∧ str_eq t.lexeme "while".data then parse_while_stmt n s
    else if t.kind = .PT_KEYWORD ∧ str_eq t.lexeme "for".data then parse_for_stmt n s
    else if t.kind = .PT_IDENTIFIER then parse_assign_stmt n s
    else panic_recover toks n (syntax_error s)

/-- Function `parse_stmt_list` (KSHARP_SYNTAX2.0.c line 389). -/
def parse_stmt_list : Nat → PState → PState
  | 0, s => { s with stuck := true }
  | n + 1, s =>
    if (cur_tok toks s).kind ≠ .PT_EOF then
      let s1 := parse_statement n s
      parse_stmt_list n s1
    else s

/-- Function `parse_program` (KSHARP_SYNTAX2.0.c line 381). -/
def parse_program : Nat → PState → PState
  | 0, s => { s with stuck := true }
  | n + 1, s => parse_stmt_list n s

end

end

/-- The parser's start state (KSHARP_SYNTAX2.0.c line 862). -/
def startState : PState := { idx := 0, err := false, stuck := false }

/-- Side conditions under which a displayed lexeme survives the
serialize/load round trip unchanged: nonempty, at most the 20-column
display width, free of the column separator and of the header-marker
letter, and not starting or ending in whitespace the loader trims. -/
def good_lexeme (w : List Char) : Bool :=
  !w.isEmpty && decide (w.length ≤ 20) && !decide ('|' ∈ w) && !decide ('T' ∈ w) &&
  w.head?.elim true (fun c => !c_isspace c) &&
  w.getLast?.elim true (fun c => !(c = '\n' || c = '\r' || c_isspace c))

end KSharpParse

/-! ## Proofs -/

namespace KSharp

/-! ### Character arithmetic for `lowerc` -/

theorem char_toNat_inj {a b : Char} (h : a.toNat = b.toNat) : a = b := by
  apply Char.eq_of_val_eq
  apply UInt32.eq_of_toBitVec_eq
  exact BitVec.eq_of_toNat_eq h

theorem char_le_iff {a b : Char} : a ≤ b ↔ a.toNat ≤ b.toNat := by
  rw [Char.le_def, UInt32.le_def]
  exact Iff.rfl

theorem char_ofNat_toNat {n : Nat} (h : n.isValidChar) : (Char.ofNat n).toNat = n := by
  have hv : n < 2 ^ 32 := by
    rcases h with h | h
    · omega
    · omega
  simp [Char.ofNat, h, Char.ofNatAux, Char.toNat, UInt32.toNat, BitVec.toNat_ofNat,
    Nat.mod_eq_of_lt hv]

/-- Characterisation of `lowerc c = dl` for a lowercase letter `dl` whose
uppercase counterpart is `du`: it holds exactly for `c = dl` and
`c = du`. -/
theorem lowerc_eq_iff (c dl du : Char) (h1 : 97 ≤ dl.toNat) (h2 : dl.toNat ≤ 122)
    (h3 : du.toNat + 32 = dl.toNat) : lowerc c = dl ↔ (c = dl ∨ c = du) := by
  unfold lowerc
  split
  case isTrue h =>
    obtain ⟨hA, hZ⟩ := h
    rw [char_le_iff] at hA hZ
    have hA65 : ('A').toNat = 65 := by decide
    have hZ90 : ('Z').toNat = 90 := by decide
    rw [hA65] at hA
    rw [hZ90] at hZ
    have ha65 : ('a').toNat = 97 := by decide
    have harg : c.toNat - ('A').toNat + ('a').toNat = c.toNat + 32 := by
      rw [hA65, ha65]; omega
    rw [harg]
    have hvalid : (c.toNat + 32).isValidChar := by
      left
      omega
    constructor
    · intro he
      right
      apply char_toNat_inj
      have := char_ofNat_toNat hvalid
      rw [he] at this
      omega
    · rintro (rfl | rfl)
      · omega
      · apply char_toNat_inj
        rw [char_ofNat_toNat hvalid]
        omega

  case isFalse h =>
    constructor
    · intro he
      exact Or.inl he
    · rintro (rfl | rfl)
      · rfl
      · exfalso
        apply h
        constructor
        · rw [char_le_iff]
          have : ('A').toNat = 65 := by decide
          omega
        · rw [char_le_iff]
          have : ('Z').toNat = 90 := by decide
          omega

/-! ### Correctness of the keyword DFA lookup (claim C1 support) -/

theorem childrenWF_mem {cs : List DFANode} (h : childrenWF cs = true) {x : DFANode}
    (hx : x ∈ cs) : nodeWF x = true := by
  induction cs with
  | nil => cases hx
  | cons c cs ih =>
    rw [childrenWF, Bool.and_eq_true] at h
    rcases List.mem_cons.1 hx with rfl | hx'
    · exact h.1
    · exact ih h.2 hx'

theorem valsDistinct_inj {cs : List DFANode} (h : valsDistinct cs = true) {a b : DFANode}
    (ha : a ∈ cs) (hb : b ∈ cs) (hv : a.val = b.val) : a = b := by
  induction cs with
  | nil => cases ha
  | cons c cs ih =>
    rw [valsDistinct, Bool.and_eq_true, List.all_eq_true] at h
    rcases List.mem_cons.1 ha with rfl | ha' <;> rcases List.mem_cons.1 hb with rfl | hb'
    · rfl
    · exact absurd hv.symm (by simpa using h.1 b hb')
    · exact absurd hv (by simpa using h.1 a ha')
    · exact ih h.2 ha' hb'

theorem mem_childLang {cs : List DFANode} {w : List Char} :
    w ∈ childLang cs ↔ ∃ c ∈ cs, ∃ w', w = c.val :: w' ∧ w' ∈ nodeLang c := by
  induction cs with
  | nil => simp [childLang]
  | cons c cs ih =>
    rw [childLang, List.mem_append, List.mem_map, ih]
    constructor
    · rintro (⟨w', hw', rfl⟩ | ⟨d, hd, w', rfl, hw'⟩)
      · exact ⟨c, List.mem_cons_self .., w', rfl, hw'⟩
      · exact ⟨d, List.mem_cons_of_mem _ hd, w', rfl, hw'⟩
    · rintro ⟨d, hd, w', rfl, hw'⟩
      rcases List.mem_cons.1 hd with rfl | hd'
      · exact Or.inl ⟨w', hw', rfl⟩
      · exact Or.inr ⟨d, hd', w', rfl, hw'⟩

theorem dfa_match_loop_iff :
    ∀ (w : List Char) (node : DFANode), nodeWF node = true →
      (dfa_match_loop w node = true ↔ w ∈ nodeLang node) := by
  intro w
  induction w with
  | nil =>
    rintro ⟨v, l, cs⟩ _
    rw [dfa_match_loop, nodeLang]
    simp only [DFANode.isLeaf]
    constructor
    · intro h
      rw [h]
      simp
    · intro h
      rcases List.mem_append.1 h with h' | h'
      · cases l
        · simp at h'
        · rfl
      · rcases mem_childLang.1 h' with ⟨d, _, w', hw', _⟩
        exact List.noConfusion hw'
  | cons c rest ih =>
    rintro ⟨v, l, cs⟩ hwf
    rw [nodeWF, Bool.and_eq_true] at hwf
    have hmem_iff : (c :: rest ∈ nodeLang (.mk v l cs)) ↔
        ∃ d ∈ cs, d.val = c ∧ rest ∈ nodeLang d := by
      rw [nodeLang]
      constructor
      · intro h
        rcases List.mem_append.1 h with h' | h'
        · cases l <;> simp at h'
        · rcases mem_childLang.1 h' with ⟨d, hd, w', hw', hl⟩
          injection hw' with h1 h2
          exact ⟨d, hd, h1.symm, by rw [h2]; exact hl⟩
      · rintro ⟨d, hd, hdv, hl⟩
        apply List.mem_append.2
        right
        exact mem_childLang.2 ⟨d, hd, rest, by rw [hdv], hl⟩
    rw [hmem_iff, dfa_match_loop]
    simp only [DFANode.children]
    cases hfind : cs.find? (fun ch => ch.val = c) with
    | none =>
      constructor
      · intro h
        exact absurd h (by simp)
      · rintro ⟨d, hd, hdv, _⟩
        have := List.find?_eq_none.1 hfind d hd
        simp [hdv] at this
    | some next =>
      have hnmem := List.mem_of_find?_eq_some hfind
      have hnval : next.val = c := by simpa using List.find?_some hfind
      rw [ih next (childrenWF_mem hwf.2 hnmem)]
      constructor
      · intro h
        exact ⟨next, hnmem, hnval, h⟩
      · rintro ⟨d, hd, hdv, hl⟩
        have hnd : next = d := valsDistinct_inj hwf.1 hnmem hd (by rw [hnval, hdv])
        rw [hnd]
        exact hl

/-- Correctness of `dfa_match` against the language of a well-formed
DFA. -/
theorem dfa_match_iff {d : DFA} (hd : dfaWF d = true) (w : List Char) :
    dfa_match d w = true ↔ w ∈ dfaLang d := by
  rw [dfaWF, Bool.and_eq_true] at hd
  cases w with
  | nil =>
    rw [dfa_match]
    constructor
    · intro h
      exact absurd h (by simp)
    · intro h
      rcases List.mem_flatMap.1 h with ⟨r, _, hr⟩
      rcases List.mem_map.1 hr with ⟨w', _, hw'⟩
      exact List.noConfusion hw'
  | cons c rest =>
    have hmem_iff : (c :: rest ∈ dfaLang d) ↔ ∃ r ∈ d.start, r.val = c ∧ rest ∈ nodeLang r := by
      rw [dfaLang]
      constructor
      · intro h
        rcases List.mem_flatMap.1 h with ⟨r, hr, hrm⟩
        rcases List.mem_map.1 hrm with ⟨w', hw', heq⟩
        injection heq.symm with h1 h2
        exact ⟨r, hr, h1.symm, by rw [h2]; exact hw'⟩
      · rintro ⟨r, hr, hrv, hl⟩
        exact List.mem_flatMap.2 ⟨r, hr, List.mem_map.2 ⟨rest, hl, by rw [hrv]⟩⟩
    rw [hmem_iff, dfa_match]
    cases hfind : d.start.find? (fun n => n.val = c) with
    | none =>
      constructor
      · intro h
        exact absurd h (by simp)
      · rintro ⟨r, hr, hrv, _⟩
        have := List.find?_eq_none.1 hfind r hr
        simp [hrv] at this
    | some node =>
      have hnmem := List.mem_of_find?_eq_some hfind
      have hnval : node.val = c := by simpa using List.find?_some hfind
      rw [dfa_match_loop_iff rest node (childrenWF_mem hd.2 hnmem)]
      constructor
      · intro h
        exact ⟨node, hnmem, hnval, h⟩
      · rintro ⟨r, hr, hrv, hl⟩
        have hnr : node = r := valsDistinct_inj hd.1 hnmem hr (by rw [hnval, hrv])
        rw [hnr]
        exact hl

theorem keyword_dfa_wf : dfaWF build_keyword_dfa = true := by decide

theorem keyword_dfa_lang_subset :
    ((dfaLang build_keyword_dfa).all (fun w => w ∈ KEYWORDS.map String.data) &&
      (KEYWORDS.map String.data).all (fun w => w ∈ dfaLang build_keyword_dfa)) = true := by
  decide

/-- The language of the built DFA has the same members as the keyword
list. -/
theorem keyword_dfa_lang (w : List Char) :
    w ∈ dfaLang build_keyword_dfa ↔ w ∈ KEYWORDS.map String.data := by
  have h := keyword_dfa_lang_subset
  rw [Bool.and_eq_true] at h
  constructor
  · intro hw
    simpa using List.all_eq_true.1 h.1 w hw
  · intro hw
    simpa using List.all_eq_true.1 h.2 w hw

/-- `is_keyword` over a character list, characterised by the keyword
list. -/
theorem is_keyword_iff (w : List Char) :
    is_keyword w = true ↔ w ∈ KEYWORDS.map String.data := by
  rw [is_keyword, dfa_match_iff keyword_dfa_wf, keyword_dfa_lang]

/-! ### Cursor lemmas -/

theorem advance_spec (L : Lexer) :
    (advance L).1 = peek L ∧ (advance L).2.buf = L.buf ∧
      (peek L = none → (advance L).2 = L) ∧
      (∀ c, peek L = some c → (advance L).2.pos = L.pos + 1) := by
  rw [advance, peek]
  cases h : L.buf[L.pos]? with
  | none => simp
  | some c => by_cases hc : c = '\n' <;> simp [hc]

theorem advance_buf (L : Lexer) : (advance L).2.buf = L.buf :=
  (advance_spec L).2.1

theorem advance_fst (L : Lexer) : (advance L).1 = peek L :=
  (advance_spec L).1

theorem advance_pos_of_peek {L : Lexer} {c : Char} (h : peek L = some c) :
    (advance L).2.pos = L.pos + 1 :=
  (advance_spec L).2.2.2 c h

theorem advance_of_peek_none {L : Lexer} (h : peek L = none) : (advance L).2 = L :=
  (advance_spec L).2.2.1 h

theorem advance_pos_le (L : Lexer) : L.pos ≤ (advance L).2.pos := by
  cases h : peek L with
  | none => rw [advance_of_peek_none h]
  | some c => rw [advance_pos_of_peek h]; omega

theorem peek_lt_length {L : Lexer} {c : Char} (h : peek L = some c) :
    L.pos < L.buf.length := by
  rw [peek] at h
  exact (List.getElem?_eq_some.1 h).1

theorem peek_drop {L : Lexer} : L.buf.drop L.pos = [] ∨
    ∃ c, peek L = some c ∧ L.buf.drop L.pos = c :: L.buf.drop (L.pos + 1) := by
  cases h : peek L with
  | none =>
    left
    rw [peek] at h
    exact List.drop_eq_nil_iff.2 (List.getElem?_eq_none_iff.1 h)
  | some c =>
    right
    refine ⟨c, rfl, ?_⟩
    obtain ⟨hlt, hv⟩ := List.getElem?_eq_some.1 (show L.buf[L.pos]? = some c from h)
    rw [List.drop_eq_getElem_cons hlt, hv]

theorem peek_none_drop {L : Lexer} (h : peek L = none) : L.buf.drop L.pos = [] := by
  rw [peek] at h
  exact List.drop_eq_nil_iff.2 (List.getElem?_eq_none_iff.1 h)

theorem peek_some_drop {L : Lexer} {c : Char} (h : peek L = some c) :
    L.buf.drop L.pos = c :: L.buf.drop (L.pos + 1) := by
  obtain ⟨hlt, hv⟩ := List.getElem?_eq_some.1 (show L.buf[L.pos]? = some c from h)
  rw [List.drop_eq_getElem_cons hlt, hv]

theorem skipWhileF_buf (p : Char → Bool) : ∀ (n : Nat) (L : Lexer),
    (skipWhileF n p L).buf = L.buf := by
  intro n
  induction n with
  | zero => intro L; rfl
  | succ n ih =>
    intro L
    rw [skipWhileF]
    cases h : peek L with
    | none => rfl
    | some c =>
      dsimp only
      by_cases hc : p c
      · rw [if_pos hc, ih, advance_buf]
      · rw [if_neg hc]

theorem skipWhileF_pos_le (p : Char → Bool) : ∀ (n : Nat) (L : Lexer),
    L.pos ≤ (skipWhileF n p L).pos := by
  intro n
  induction n with
  | zero => intro L; exact Nat.le_refl _
  | succ n ih =>
    intro L
    rw [skipWhileF]
    cases h : peek L with
    | none => exact Nat.le_refl _
    | some c =>
      dsimp only
      by_cases hc : p c
      · rw [if_pos hc]
        exact Nat.le_trans (advance_pos_le L) (ih _)
      · rw [if_neg hc]

theorem skipWhileF_pos (p : Char → Bool) : ∀ (n : Nat) (L : Lexer),
    L.buf.length - L.pos ≤ n →
    (skipWhileF n p L).pos = L.pos + ((L.buf.drop L.pos).takeWhile p).length := by
  intro n
  induction n with
  | zero =>
    intro L h
    have hd : L.buf.drop L.pos = [] := List.drop_eq_nil_iff.2 (by omega)
    rw [skipWhileF, hd]
    simp
  | succ n ih =>
    intro L h
    rw [skipWhileF]
    cases hp : peek L with
    | none =>
      rw [peek_none_drop hp]
      simp
    | some c =>
      dsimp only
      have hlt := peek_lt_length hp
      have hdrop := peek_some_drop hp
      by_cases hc : p c
      · rw [if_pos hc]
        have hbuf := advance_buf L
        have hpos := advance_pos_of_peek hp
        rw [ih _ (by rw [hbuf, hpos]; omega), hbuf, hpos, hdrop,
          List.takeWhile_cons_of_pos hc]
        simp
        omega
      · rw [if_neg hc, hdrop, List.takeWhile_cons_of_neg hc]
        simp

theorem skipWhile_buf (p : Char → Bool) (L : Lexer) : (skipWhile p L).buf = L.buf :=
  skipWhileF_buf p _ L

theorem skipWhile_pos_le (p : Char → Bool) (L : Lexer) : L.pos ≤ (skipWhile p L).pos :=
  skipWhileF_pos_le p _ L

theorem skipWhile_pos (p : Char → Bool) (L : Lexer) :
    (skipWhile p L).pos = L.pos + ((L.buf.drop L.pos).takeWhile p).length :=
  skipWhileF_pos p _ L (Nat.le_refl _)

/-! ### Characterisations of the word classifiers -/

/-- The words accepted by `is_bool_lit`: because only the first character
is lowercased, "True" and "False" are accepted along with "true" and
"false". -/
theorem is_bool_lit_mem (w : List Char) :
    is_bool_lit w ≠ -1 ↔ w ∈ ["true".data, "True".data, "false".data, "False".data] := by
  constructor
  · intro h
    rcases w with _ | ⟨a, _ | ⟨b, _ | ⟨c, _ | ⟨d, _ | ⟨e, _ | ⟨f, rest⟩⟩⟩⟩⟩⟩
    · simp [is_bool_lit] at h
    · simp [is_bool_lit] at h
    · simp [is_bool_lit] at h
    · simp [is_bool_lit] at h
    · rw [is_bool_lit] at h
      split_ifs at h with hc
      · rw [Bool.and_eq_true, Bool.and_eq_true, Bool.and_eq_true] at hc
        obtain ⟨⟨⟨h1, h2⟩, h3⟩, h4⟩ := hc
        rw [beq_iff_eq] at h1 h2 h3 h4
        subst h2; subst h3; subst h4
        rcases (lowerc_eq_iff a 't' 'T' (by decide) (by decide) (by decide)).1 h1 with rfl | rfl
        · simp
        · simp
      · simp at h
    · rw [is_bool_lit] at h
      split_ifs at h with hc
      · rw [Bool.and_eq_true, Bool.and_eq_true, Bool.and_eq_true, Bool.and_eq_true] at hc
        obtain ⟨⟨⟨⟨h1, h2⟩, h3⟩, h4⟩, h5⟩ := hc
        rw [beq_iff_eq] at h1 h2 h3 h4 h5
        subst h2; subst h3; subst h4; subst h5
        rcases (lowerc_eq_iff a 'f' 'F' (by decide) (by decide) (by decide)).1 h1 with rfl | rfl
        · simp
        · simp
      · simp at h
    · simp [is_bool_lit] at h
  · intro h
    fin_cases h <;> decide

/-- The words accepted by `is_type` (first character case-insensitive). -/
theorem is_type_mem (w : List Char) :
    is_type w = true ↔ w ∈ ["int".data, "Int".data, "float".data, "Float".data,
      "char".data, "Char".data, "bool".data, "Bool".data, "void".data, "Void".data] := by
  constructor
  · intro h
    rcases w with _ | ⟨c0, rest⟩
    · simp [is_type] at h
    · rw [is_type] at h
      split_ifs at h with h1 h2 h3 h4 h5
      · rw [beq_iff_eq] at h
        subst h
        rcases (lowerc_eq_iff c0 'i' 'I' (by decide) (by decide) (by decide)).1 h1
          with rfl | rfl <;> simp
      · rw [beq_iff_eq] at h
        subst h
        rcases (lowerc_eq_iff c0 'f' 'F' (by decide) (by decide) (by decide)).1 h2
          with rfl | rfl <;> simp
      · rw [beq_iff_eq] at h
        subst h
        rcases (lowerc_eq_iff c0 'c' 'C' (by decide) (by decide) (by decide)).1 h3
          with rfl | rfl <;> simp
      · rw [beq_iff_eq] at h
        subst h
        rcases (lowerc_eq_iff c0 'b' 'B' (by decide) (by decide) (by decide)).1 h4
          with rfl | rfl <;> simp
      · rw [beq_iff_eq] at h
        subst h
        rcases (lowerc_eq_iff c0 'v' 'V' (by decide) (by decide) (by decide)).1 h5
          with rfl | rfl <;> simp
  · intro h
    fin_cases h <;> decide

/-- The words accepted by `is_noise` (first character case-insensitive). -/
theorem is_noise_mem (w : List Char) :
    is_noise w = true ↔ w ∈ ["please".data, "Please".data, "then".data, "Then".data,
      "to".data, "To".data, "do".data, "Do".data, "end".data, "End".data,
      "begin".data, "Begin".data, "of".data, "Of".data, "and".data, "And".data,
      "from".data, "From".data] := by
  constructor
  · intro h
    rcases w with _ | ⟨c0, rest⟩
    · simp [is_noise] at h
    · rw [is_noise] at h
      split_ifs at h with h1 h2 h3 h4 h5 h6 h7 h8
      · rw [beq_iff_eq] at h
        subst h
        rcases (lowerc_eq_iff c0 'p' 'P' (by decide) (by decide) (by decide)).1 h1
          with rfl | rfl <;> simp
      · rw [Bool.or_eq_true, beq_iff_eq, beq_iff_eq] at h
        rcases (lowerc_eq_iff c0 't' 'T' (by decide) (by decide) (by decide)).1 h2
          with rfl | rfl <;> rcases h with rfl | rfl <;> simp
      · rw [beq_iff_eq] at h
        subst h
        rcases (lowerc_eq_iff c0 'd' 'D' (by decide) (by decide) (by decide)).1 h3
          with rfl | rfl <;> simp
      · rw [beq_iff_eq] at h
        subst h
        rcases (lowerc_eq_iff c0 'e' 'E' (by decide) (by decide) (by decide)).1 h4
          with rfl | rfl <;> simp
      · rw [beq_iff_eq] at h
        subst h
        rcases (lowerc_eq_iff c0 'b' 'B' (by decide) (by decide) (by decide)).1 h5
          with rfl | rfl <;> simp
      · rw [beq_iff_eq] at h
        subst h
        rcases (lowerc_eq_iff c0 'o' 'O' (by decide) (by decide) (by decide)).1 h6
          with rfl | rfl <;> simp
      · rw [beq_iff_eq] at h
        subst h
        rcases (lowerc_eq_iff c0 'a' 'A' (by decide) (by decide) (by decide)).1 h7
          with rfl | rfl <;> simp
      · rw [beq_iff_eq] at h
        subst h
        rcases (lowerc_eq_iff c0 'f' 'F' (by decide) (by decide) (by decide)).1 h8
          with rfl | rfl <;> simp
  · intro h
    fin_cases h <;> decide

/-- The words accepted by `is_word_op` (all characters case-insensitive). -/
theorem is_word_op_mem (w : List Char) :
    (is_word_op w).isSome = true ↔ w ∈ ["div".data, "diV".data, "dIv".data, "dIV".data,
      "Div".data, "DiV".data, "DIv".data, "DIV".data, "mod".data, "moD".data,
      "mOd".data, "mOD".data, "Mod".data, "MoD".data, "MOd".data, "MOD".data] := by
  constructor
  · intro h
    rcases w with _ | ⟨a, _ | ⟨b, _ | ⟨c, _ | ⟨d, rest⟩⟩⟩⟩
    · simp [is_word_op] at h
    · simp [is_word_op] at h
    · simp [is_word_op] at h
    · rw [is_word_op] at h
      split_ifs at h with h1 h2
      · rw [Bool.and_eq_true, Bool.and_eq_true] at h1
        obtain ⟨⟨ha, hb⟩, hc⟩ := h1
        rw [beq_iff_eq] at ha hb hc
        rcases (lowerc_eq_iff a 'd' 'D' (by decide) (by decide) (by decide)).1 ha
            with rfl | rfl <;>
          rcases (lowerc_eq_iff b 'i' 'I' (by decide) (by decide) (by decide)).1 hb
            with rfl | rfl <;>
          rcases (lowerc_eq_iff c 'v' 'V' (by decide) (by decide) (by decide)).1 hc
            with rfl | rfl <;> simp
      · rw [Bool.and_eq_true, Bool.and_eq_true] at h2
        obtain ⟨⟨ha, hb⟩, hc⟩ := h2
        rw [beq_iff_eq] at ha hb hc
        rcases (lowerc_eq_iff a 'm' 'M' (by decide) (by decide) (by decide)).1 ha
            with rfl | rfl <;>
          rcases (lowerc_eq_iff b 'o' 'O' (by decide) (by decide) (by decide)).1 hb
            with rfl | rfl <;>
          rcases (lowerc_eq_iff c 'd' 'D' (by decide) (by decide) (by decide)).1 hc
            with rfl | rfl <;> simp
      · simp at h
    · simp [is_word_op] at h
  · intro h
    fin_cases h <;> decide

theorem takeWhile_all {α : Type} {p : α → Bool} :
    ∀ {l : List α}, (∀ c ∈ l, p c = true) → l.takeWhile p = l := by
  intro l
  induction l with
  | nil => intro _; rfl
  | cons a l ih =>
    intro h
    rw [List.takeWhile_cons_of_pos (h a (List.mem_cons_self _ _)),
      ih (fun c hc => h c (List.mem_cons_of_mem _ hc))]

/-- Scanning a buffer that consists of a single word: the produced token
has the whole word as its lexeme, and its type follows the classifier
priority chain of `scan_identifier_or_keyword`. -/
theorem scan_word_spec (c : Char) (w' : List Char)
    (hall : ∀ x ∈ c :: w', (x.isAlphanum || x = '_') = true) :
    (scan_identifier_or_keyword (mkLexer (c :: w'))).1.lexeme = c :: w' ∧
    (scan_identifier_or_keyword (mkLexer (c :: w'))).1.type =
      (if is_bool_lit (c :: w') != -1 then TokenType.const_bool
       else if (is_word_op (c :: w')).isSome then .op_arith
       else if is_type (c :: w') then .reserved_type
       else if is_keyword (c :: w') then .keyword
       else if is_noise (c :: w') then .noise
       else .identifier) := by
  have hp0 : peek (mkLexer (c :: w')) = some c := by simp [peek, mkLexer]
  have hb1 : (advance (mkLexer (c :: w'))).2.buf = c :: w' := advance_buf _
  have hpos1 : (advance (mkLexer (c :: w'))).2.pos = 1 := advance_pos_of_peek hp0
  simp only [scan_identifier_or_keyword]
  set L1 := (advance (mkLexer (c :: w'))).2 with hL1
  set p := fun c : Char => c.isAlphanum || c = '_' with hp
  set L2 := skipWhile p L1 with hL2
  have hb2 : L2.buf = c :: w' := (skipWhile_buf p L1).trans hb1
  have hpos2 : L2.pos = (c :: w').length := by
    have h := skipWhile_pos p L1
    rw [hpos1, hb1] at h
    rw [hL2, h, show (c :: w').drop 1 = w' from rfl,
      takeWhile_all (fun x hx => hall x (List.mem_cons_of_mem _ hx))]
    simp [Nat.add_comm]
  have hstart : (mkLexer (c :: w')).pos = 0 := rfl
  rw [hstart, hpos2, hb2]
  simp only [Nat.sub_zero, List.drop_zero, List.take_length]
  by_cases h1 : (is_bool_lit (c :: w') != -1) = true
  · simp [h1, make]
  · cases hwo : is_word_op (c :: w') with
    | some e => simp [h1, hwo, make]
    | none =>
      by_cases h2 : is_type (c :: w') = true
      · simp [h1, hwo, h2, make]
      · by_cases h3 : is_keyword (c :: w') = true
        · simp [h1, hwo, h2, h3, make]
        · by_cases h4 : is_noise (c :: w') = true
          · simp [h1, hwo, h2, h3, h4, make]
          · simp [h1, hwo, h2, h3, h4, make]

/-! ### Claim C1 -/

/-- C1: once the keyword DFA has been built from the fixed 22-word list,
`is_keyword(s, |s|)` returns true exactly for the strings verbatim in
that list; in particular every proper prefix (such as "i" or "el") and
every proper extension (such as "ifx") of a keyword is rejected, since it
is not in the list. -/
theorem C1_is_keyword_exact (s : String) :
    is_keyword s.data = true ↔ s ∈ KEYWORDS := by
  rw [is_keyword_iff]
  constructor
  · intro h
    rcases List.mem_map.1 h with ⟨t, ht, hts⟩
    exact String.ext hts ▸ ht
  · intro h
    exact List.mem_map.2 ⟨s, h, rfl⟩

/-! ### Claim C5 -/

/-- C5 counterexample: scanning the single word "True" produces a
const_bool token even though "True" is neither "true" nor "false", so
boolean-literal recognition is not case-sensitive as claimed. -/
theorem C5_counterexample_True :
    (scan_identifier_or_keyword (mkLexer "True".data)).1.type = TokenType.const_bool ∧
    decide ("True" ∈ ["true", "false"]) = false := by decide

/-- C5 (amended): boolean-literal recognition is case-insensitive in the
first character only: a scanned word is classified const_bool exactly
when it is one of "true", "True", "false", "False". -/
theorem C5_bool_classification (c : Char) (w' : List Char)
    (hall : ∀ x ∈ c :: w', (x.isAlphanum || x = '_') = true) :
    (scan_identifier_or_keyword (mkLexer (c :: w'))).1.type = TokenType.const_bool ↔
      c :: w' ∈ ["true".data, "True".data, "false".data, "False".data] := by
  rw [(scan_word_spec c w' hall).2]
  by_cases hb : (is_bool_lit (c :: w') != -1) = true
  · rw [if_pos hb]
    constructor
    · intro _
      exact (is_bool_lit_mem _).1 (by simpa using hb)
    · intro _
      rfl
  · rw [if_neg hb]
    constructor
    · intro h
      exfalso
      split_ifs at h
    · intro hm
      exact absurd (by simpa using (is_bool_lit_mem _).2 hm) hb

theorem C5_bool_classification_witness :
    (∀ x ∈ 'T' :: "rue".data, (x.isAlphanum || x = '_') = true) ∧
    ((scan_identifier_or_keyword (mkLexer ('T' :: "rue".data))).1.type = TokenType.const_bool ↔
      'T' :: "rue".data ∈ ["true".data, "True".data, "false".data, "False".data]) :=
  ⟨by decide, C5_bool_classification 'T' "rue".data (by decide)⟩

/-! ### Claim C6 -/

/-- C6 counterexample: "do" is accepted both by the keyword DFA and by the
noise-word classifier, so the fixed word-category sets are not pairwise
disjoint. -/
theorem C6_counterexample_do :
    is_keyword "do".data = true ∧ is_noise "do".data = true := by decide

/-- C6 (amended): the word categories recognised by the scanner are
pairwise disjoint except for keywords and noise words, which share
exactly then, do, end, of, begin; by the priority order (boolean →
word-operator → type → keyword → noise) each word still resolves to a
unique, earliest matching category. -/
theorem C6_category_disjointness (w : List Char) :
    ((is_bool_lit w != -1) && (is_word_op w).isSome) = false ∧
    ((is_bool_lit w != -1) && is_type w) = false ∧
    ((is_bool_lit w != -1) && is_keyword w) = false ∧
    ((is_bool_lit w != -1) && is_noise w) = false ∧
    ((is_word_op w).isSome && is_type w) = false ∧
    ((is_word_op w).isSome && is_keyword w) = false ∧
    ((is_word_op w).isSome && is_noise w) = false ∧
    (is_type w && is_keyword w) = false ∧
    (is_type w && is_noise w) = false ∧
    (is_keyword w && is_noise w) =
      decide (w ∈ ["then".data, "do".data, "end".data, "of".data, "begin".data]) := by
  refine ⟨?_, ?_, ?_, ?_, ?_, ?_, ?_, ?_, ?_, ?_⟩
  · cases hx : (is_bool_lit w != -1) with
    | false => simp
    | true =>
      have hw := (is_bool_lit_mem w).1 (by simpa using hx)
      fin_cases hw <;> decide
  · cases hx : (is_bool_lit w != -1) with
    | false => simp
    | true =>
      have hw := (is_bool_lit_mem w).1 (by simpa using hx)
      fin_cases hw <;> decide
  · cases hx : (is_bool_lit w != -1) with
    | false => simp
    | true =>
      have hw := (is_bool_lit_mem w).1 (by simpa using hx)
      fin_cases hw <;> decide
  · cases hx : (is_bool_lit w != -1) with
    | false => simp
    | true =>
      have hw := (is_bool_lit_mem w).1 (by simpa using hx)
      fin_cases hw <;> decide
  · cases hx : (is_word_op w).isSome with
    | false => simp
    | true =>
      have hw := (is_word_op_mem w).1 hx
      fin_cases hw <;> decide
  · cases hx : (is_word_op w).isSome with
    | false => simp
    | true =>
      have hw := (is_word_op_mem w).1 hx
      fin_cases hw <;> decide
  · cases hx : (is_word_op w).isSome with
    | false => simp
    | true =>
      have hw := (is_word_op_mem w).1 hx
      fin_cases hw <;> decide
  · cases hx : is_type w with
    | false => simp
    | true =>
      have hw := (is_type_mem w).1 hx
      fin_cases hw <;> decide
  · cases hx : is_type w with
    | false => simp
    | true =>
      have hw := (is_type_mem w).1 hx
      fin_cases hw <;> decide
  · cases hx : is_keyword w with
    | false =>
      by_cases hm : w ∈ ["then".data, "do".data, "end".data, "of".data, "begin".data]
      · fin_cases hm <;> exact absurd hx (by decide)
      · simp [hm]
    | true =>
      have hw := (is_keyword_iff w).1 hx
      fin_cases hw <;> decide

/-! ### Lexer progress and termination (claim C3) -/

theorem matchc_buf (L : Lexer) (ch : Char) : (matchc L ch).2.buf = L.buf := by
  rw [matchc]
  split_ifs
  · exact advance_buf L
  · rfl

theorem matchc_pos_le (L : Lexer) (ch : Char) : L.pos ≤ (matchc L ch).2.pos := by
  rw [matchc]
  split_ifs
  · exact advance_pos_le L
  · exact Nat.le_refl _

theorem matchc_of_peek {L : Lexer} {ch : Char} (h : peek L = some ch) :
    matchc L ch = (true, (advance L).2) := by
  rw [matchc, if_pos h]

theorem scan_string_loopF_spec :
    ∀ (n p0 col0 : Nat) (L : Lexer),
      (scan_string_loopF n p0 col0 L).2.buf = L.buf ∧
      L.pos ≤ (scan_string_loopF n p0 col0 L).2.pos := by
  intro n
  induction n with
  | zero => intro p0 col0 L; exact ⟨rfl, Nat.le_refl _⟩
  | succ n ih =>
    intro p0 col0 L
    rw [scan_string_loopF]
    cases hp : peek L with
    | none => exact ⟨rfl, Nat.le_refl _⟩
    | some c =>
      dsimp only
      split_ifs with h1 h2 h3
      · -- escape
        refine ⟨((ih ..).1.trans ?_), le_trans ?_ (ih ..).2⟩
        · cases hq : peek (advance L).2 with
          | none => simp [hq, advance_buf]
          | some d => simp [hq, advance_buf]
        · cases hq : peek (advance L).2 with
          | none => simp [hq]; exact advance_pos_le L
          | some d =>
            simp [hq]
            exact le_trans (advance_pos_le L) (advance_pos_le _)
      · exact ⟨advance_buf L, advance_pos_le L⟩
      · exact ⟨rfl, Nat.le_refl _⟩
      · exact ⟨(ih ..).1.trans (advance_buf L), le_trans (advance_pos_le L) (ih ..).2⟩


theorem scan_block_commentF_spec :
    ∀ (n : Nat) (prev : Option Char) (col0 : Nat) (L : Lexer),
      (scan_block_commentF n prev col0 L).2.buf = L.buf ∧
      L.pos ≤ (scan_block_commentF n prev col0 L).2.pos := by
  intro n
  induction n with
  | zero => intro prev col0 L; exact ⟨rfl, Nat.le_refl _⟩
  | succ n ih =>
    intro prev col0 L
    rw [scan_block_commentF]
    cases ha : advance L with
    | mk o L1 =>
      cases o with
      | none =>
        dsimp only
        have : L1 = L := by
          cases hp : peek L with
          | none =>
            have h2 := advance_of_peek_none hp
            rw [ha] at h2
            exact h2
          | some c => have := advance_fst L; rw [ha, hp] at this; cases this
        rw [this]
        exact ⟨rfl, Nat.le_refl _⟩
      | some cur =>
        dsimp only
        have hbuf : L1.buf = L.buf := by have := advance_buf L; rw [ha] at this; exact this
        have hpos : L.pos ≤ L1.pos := by have := advance_pos_le L; rw [ha] at this; exact this
        split_ifs with h1
        · exact ⟨hbuf, hpos⟩
        · exact ⟨(ih ..).1.trans hbuf, le_trans hpos (ih ..).2⟩


theorem scan_string_progress {L : Lexer} {c : Char} (hp : peek L = some c) :
    (scan_string L).2.buf = L.buf ∧ L.pos < (scan_string L).2.pos := by
  simp only [scan_string]
  have h1 := advance_pos_of_peek hp
  constructor
  · exact (scan_string_loopF_spec ..).1.trans (advance_buf L)
  · calc L.pos < (advance L).2.pos := by omega
      _ ≤ _ := (scan_string_loopF_spec ..).2

theorem scan_char_progress {L : Lexer} {c : Char} (hp : peek L = some c) :
    (scan_char L).2.buf = L.buf ∧ L.pos < (scan_char L).2.pos := by
  simp only [scan_char]
  have h1 := advance_pos_of_peek hp
  set L1 := (advance L).2 with hL1
  set r := advance L1 with hr
  have hrbuf : r.2.buf = L1.buf := advance_buf L1
  have hrpos : L1.pos ≤ r.2.pos := advance_pos_le L1
  set L3 := if r.1 = some '\\' then (advance r.2).2 else r.2 with hL3
  have h3buf : L3.buf = L.buf := by
    rw [hL3]
    split_ifs
    · rw [advance_buf, hrbuf, advance_buf]
    · rw [hrbuf, advance_buf]
  have h3pos : L.pos < L3.pos := by
    rw [hL3]
    split_ifs
    · calc L.pos < L1.pos := by omega
        _ ≤ r.2.pos := hrpos
        _ ≤ _ := advance_pos_le _
    · omega
  split_ifs with h4
  · refine ⟨(advance_buf L3).trans h3buf, lt_of_lt_of_le h3pos (advance_pos_le L3)⟩
  · exact ⟨h3buf, h3pos⟩

theorem scan_number_progress {L : Lexer} {c : Char} (hp : peek L = some c)
    (hd : c.isDigit = true) :
    (scan_number L).2.buf = L.buf ∧ L.pos < (scan_number L).2.pos := by
  have h1buf : (skipWhile (fun c => c.isDigit) L).buf = L.buf := skipWhile_buf _ _
  have h1pos : L.pos < (skipWhile (fun c => c.isDigit) L).pos := by
    rw [skipWhile_pos, peek_some_drop hp, List.takeWhile_cons_of_pos hd]
    simp
  simp only [scan_number]
  set L1 := skipWhile (fun c => c.isDigit) L with hL1
  split_ifs with hdot hbad
  · set L2 := (advance L1).2 with hL2
    exact ⟨(advance_buf L1).trans h1buf, lt_of_lt_of_le h1pos (advance_pos_le L1)⟩
  · refine ⟨((skipWhile_buf _ _).trans ((advance_buf L1).trans h1buf)), ?_⟩
    calc L.pos < L1.pos := h1pos
      _ ≤ (advance L1).2.pos := advance_pos_le L1
      _ ≤ _ := skipWhile_pos_le _ _
  · exact ⟨h1buf, h1pos⟩

theorem scan_identifier_progress {L : Lexer} {c : Char} (hp : peek L = some c) :
    (scan_identifier_or_keyword L).2.buf = L.buf ∧
    L.pos < (scan_identifier_or_keyword L).2.pos := by
  simp only [scan_identifier_or_keyword]
  have h1 := advance_pos_of_peek hp
  have hbuf : (skipWhile (fun c => c.isAlphanum || c = '_') (advance L).2).buf = L.buf :=
    (skipWhile_buf _ _).trans (advance_buf L)
  have hpos : L.pos < (skipWhile (fun c => c.isAlphanum || c = '_') (advance L).2).pos := by
    calc L.pos < (advance L).2.pos := by omega
      _ ≤ _ := skipWhile_pos_le _ _
  split_ifs <;> first
    | exact ⟨hbuf, hpos⟩
    | (cases hwo : is_word_op (((skipWhile (fun c => c.isAlphanum || c = '_') (advance L).2).buf.drop L.pos).take _) <;> exact ⟨hbuf, hpos⟩)


theorem matchc_not_peek {L : Lexer} {ch : Char} (h : ¬ peek L = some ch) :
    matchc L ch = (false, L) := by
  rw [matchc, if_neg h]

theorem scan_slash_progress {L : Lexer} (hp : peek L = some '/') :
    (scan_slash_comment_or_op L).2.buf = L.buf ∧ L.pos < (scan_slash_comment_or_op L).2.pos := by
  have h1 := advance_pos_of_peek hp
  have h1buf := advance_buf L
  simp only [scan_slash_comment_or_op, matchc_of_peek hp]
  rw [if_pos (by simp)]
  by_cases h2 : peek (advance L).2 = some '/'
  · simp only [matchc_of_peek h2]
    rw [if_pos (by simp)]
    refine ⟨(skipWhile_buf _ _).trans ((advance_buf _).trans h1buf), ?_⟩
    calc L.pos < (advance L).2.pos := by omega
      _ ≤ (advance (advance L).2).2.pos := advance_pos_le _
      _ ≤ _ := skipWhile_pos_le _ _
  · simp only [matchc_not_peek h2]
    rw [if_neg (by simp)]
    by_cases h3 : peek (advance L).2 = some '*'
    · simp only [matchc_of_peek h3]
      rw [if_pos (by simp)]
      refine ⟨(scan_block_commentF_spec ..).1.trans ((advance_buf _).trans h1buf), ?_⟩
      calc L.pos < (advance L).2.pos := by omega
        _ ≤ (advance (advance L).2).2.pos := advance_pos_le _
        _ ≤ _ := (scan_block_commentF_spec ..).2
    · simp only [matchc_not_peek h3]
      rw [if_neg (by simp)]
      refine ⟨h1buf, ?_⟩
      show L.pos < (advance L).2.pos
      omega

theorem scan_operator_progress {L : Lexer} {c : Char} (hp : peek L = some c) :
    (scan_operator L).2.buf = L.buf ∧ L.pos < (scan_operator L).2.pos := by
  simp only [scan_operator]
  have h1 := advance_pos_of_peek hp
  have h0 := advance_fst L
  rw [hp] at h0
  cases ha : advance L with
  | mk o L1 =>
    rw [ha] at h0 h1
    dsimp only at h0 h1
    cases o with
    | none => cases h0
    | some c' =>
      dsimp only
      have h1buf : L1.buf = L.buf := by have := advance_buf L; rw [ha] at this; exact this
      have hm : ∀ ch, (matchc L1 ch).2.buf = L.buf ∧ L.pos < (matchc L1 ch).2.pos := by
        intro ch
        refine ⟨(matchc_buf L1 ch).trans h1buf, ?_⟩
        calc L.pos < L1.pos := by omega
          _ ≤ _ := matchc_pos_le L1 ch
      split_ifs <;> first
        | exact ⟨h1buf, by dsimp only; omega⟩
        | exact hm _


theorem next_token_spec (L : Lexer) :
    (next_token L).2.buf = L.buf ∧
    ((next_token L).1.type = TokenType.eof ∨
      (L.pos < (next_token L).2.pos ∧ L.pos < L.buf.length)) := by
  simp only [next_token]
  set Ls := skip_ws L with hLs
  have hsbuf : Ls.buf = L.buf := skipWhile_buf _ _
  have hspos : L.pos ≤ Ls.pos := skipWhile_pos_le _ _
  cases hp : peek Ls with
  | none => exact ⟨hsbuf, Or.inl rfl⟩
  | some c =>
    dsimp only
    have hlt : L.pos < L.buf.length := by
      have := peek_lt_length hp
      rw [hsbuf] at this
      omega
    have hadv := advance_pos_of_peek hp
    split_ifs with h1 h2 h3 h4 h5 h6 h7 h8
    · exact ⟨(advance_buf Ls).trans hsbuf, Or.inr ⟨by first | (dsimp only; omega) | omega, hlt⟩⟩
    · exact ⟨(advance_buf Ls).trans hsbuf, Or.inr ⟨by first | (dsimp only; omega) | omega, hlt⟩⟩
    · have := scan_identifier_progress hp
      exact ⟨this.1.trans hsbuf, Or.inr ⟨by first | (dsimp only; omega) | omega, hlt⟩⟩
    · have := scan_number_progress hp h4
      exact ⟨this.1.trans hsbuf, Or.inr ⟨by first | (dsimp only; omega) | omega, hlt⟩⟩
    · have := scan_string_progress hp
      exact ⟨this.1.trans hsbuf, Or.inr ⟨by first | (dsimp only; omega) | omega, hlt⟩⟩
    · have := scan_char_progress hp
      exact ⟨this.1.trans hsbuf, Or.inr ⟨by first | (dsimp only; omega) | omega, hlt⟩⟩
    · subst h7
      have := scan_slash_progress hp
      exact ⟨this.1.trans hsbuf, Or.inr ⟨by first | (dsimp only; omega) | omega, hlt⟩⟩
    · have := scan_operator_progress hp
      exact ⟨this.1.trans hsbuf, Or.inr ⟨by first | (dsimp only; omega) | omega, hlt⟩⟩
    · exact ⟨(advance_buf Ls).trans hsbuf, Or.inr ⟨by first | (dsimp only; omega) | omega, hlt⟩⟩

theorem getLast?_cons_of_getLast? {α : Type} {a t : α} {l : List α}
    (h : l.getLast? = some t) : (a :: l).getLast? = some t := by
  cases l with
  | nil => cases h
  | cons b l' => rw [List.getLast?_cons_cons]; exact h

theorem tokenizeF_last_eof :
    ∀ (n : Nat) (L : Lexer), L.buf.length - L.pos + 1 ≤ n →
      ((tokenizeF n L).getLast?).map Token.type = some TokenType.eof := by
  intro n
  induction n with
  | zero => intro L h; omega
  | succ n ih =>
    intro L h
    rw [tokenizeF]
    by_cases he : (next_token L).1.type = TokenType.eof
    · rw [if_pos he]
      simp [he]
    · rw [if_neg he]
      have hs := next_token_spec L
      rcases hs.2 with heq | ⟨hlt, hlen⟩
      · exact absurd heq he
      · have htail := ih (next_token L).2 (by rw [hs.1]; omega)
        cases ht : (tokenizeF n (next_token L).2).getLast? with
        | none => rw [ht] at htail; cases htail
        | some t =>
          rw [ht] at htail
          rw [getLast?_cons_of_getLast? ht]
          exact htail

/-! ### Claim C3 -/

/-- C3: every call to `next_token` either returns an eof token or strictly
increases the cursor position, so repeated scanning of a finite buffer
terminates and the resulting token stream ends with an eof token. -/
theorem C3_next_token_progress_and_eof (L : Lexer) :
    ((next_token L).1.type = TokenType.eof ∨ L.pos < (next_token L).2.pos) ∧
    ((tokenize L).getLast?).map Token.type = some TokenType.eof := by
  refine ⟨?_, tokenizeF_last_eof _ L (Nat.le_refl _)⟩
  rcases (next_token_spec L).2 with h | h
  · exact Or.inl h
  · exact Or.inr h.1

/-! ### Claim C8: scan_number -/

/-- C8: starting at a digit, `scan_number` consumes the maximal digit run
`ds`; if the following character (the head of `after`) is not a dot it
produces a const_int token whose lexeme is `ds`; if a dot follows and then
at least one digit, it also consumes the dot and the maximal digit run
after it and produces const_float; if a dot follows without a digit it
produces an unknown token carrying the malformed-float tag (whose text is
the 10-byte copy the C code makes of "<bad_float>"). -/
theorem C8_scan_number_spec (L : Lexer) (c : Char) (ds after : List Char)
    (hp : peek L = some c) (hd : c.isDigit = true)
    (hds : ds = (L.buf.drop L.pos).takeWhile (fun c => c.isDigit))
    (hafter : after = (L.buf.drop L.pos).drop ds.length) :
    (scan_number L).2.buf = L.buf ∧
    (after.head? ≠ some '.' →
      (scan_number L).1.type = TokenType.const_int ∧
      (scan_number L).1.lexeme = ds ∧
      (scan_number L).2.pos = L.pos + ds.length) ∧
    (∀ d tl, after = '.' :: d :: tl → d.isDigit = true →
      (scan_number L).1.type = TokenType.const_float ∧
      (scan_number L).1.lexeme = ds ++ '.' :: (d :: tl).takeWhile (fun c => c.isDigit) ∧
      (scan_number L).2.pos =
        L.pos + (ds.length + 1 + ((d :: tl).takeWhile (fun c => c.isDigit)).length)) ∧
    (after.head? = some '.' → isdigit (after.drop 1).head? = false →
      (scan_number L).1.type = TokenType.unknown ∧
      (scan_number L).1.lexeme = "<bad_float>".data.take 10 ∧
      (scan_number L).2.pos = L.pos + ds.length + 1) := by
  have hdsp : ds = (L.buf.drop L.pos).take ds.length := by
    rw [hds]
    exact List.prefix_iff_eq_take.1 (List.takeWhile_prefix _)
  have hsplit : L.buf.drop L.pos = ds ++ after := by
    conv =>
      lhs
      rw [← List.take_append_drop ds.length (L.buf.drop L.pos)]
    rw [← hdsp, ← hafter]
  have hF1 : L.buf.drop (L.pos + ds.length) = after := by
    rw [← List.drop_drop, ← hafter]
  have hF2 : L.buf.drop (L.pos + ds.length + 1) = after.drop 1 := by
    rw [← hF1, List.drop_drop]
  simp only [scan_number]
  set p := fun c : Char => c.isDigit with hpdef
  set L1 := skipWhile p L with hL1
  have h1buf : L1.buf = L.buf := skipWhile_buf _ _
  have h1pos : L1.pos = L.pos + ds.length := by
    rw [hL1, skipWhile_pos, hds]
  have hpeek1 : peek L1 = after.head? := by
    rw [peek, h1buf, h1pos, ← List.head?_drop, hF1]
  refine ⟨?_, ?_, ?_, ?_⟩
  · split_ifs with h1 h2
    · exact (advance_buf L1).trans h1buf
    · exact (skipWhile_buf _ _).trans ((advance_buf L1).trans h1buf)
    · exact h1buf
  · intro hno
    rw [if_neg (by rw [hpeek1]; exact hno)]
    refine ⟨rfl, ?_, ?_⟩
    · show ((L1.buf.drop L.pos).take (L1.pos - L.pos)) = ds
      rw [h1buf, h1pos, Nat.add_sub_cancel_left, ← hdsp]
    · show L1.pos = L.pos + ds.length
      exact h1pos
  · intro d tl hshape hdig
    have hdot : peek L1 = some '.' := by rw [hpeek1, hshape]; rfl
    rw [if_pos hdot]
    have h2pos : (advance L1).2.pos = L.pos + ds.length + 1 := by
      rw [advance_pos_of_peek hdot, h1pos]
    have h2buf : (advance L1).2.buf = L.buf := (advance_buf L1).trans h1buf
    have hpeek2 : peek (advance L1).2 = some d := by
      rw [peek, h2buf, h2pos, ← List.head?_drop, hF2, hshape]
      rfl
    have hisd : isdigit (peek (advance L1).2) = true := by
      rw [hpeek2, isdigit, hdig]
    rw [if_neg (by rw [hisd]; exact fun hcon => by cases hcon)]
    set L2 := (advance L1).2 with hL2
    set L3 := skipWhile p L2 with hL3
    have hdrop2 : L2.buf.drop L2.pos = d :: tl := by
      rw [h2buf, h2pos, hF2, hshape]
      rfl
    have h3buf : L3.buf = L.buf := (skipWhile_buf _ _).trans h2buf
    have h3pos : L3.pos = L.pos + (ds.length + 1 + ((d :: tl).takeWhile p).length) := by
      rw [hL3, skipWhile_pos, hdrop2, h2pos]
      omega
    refine ⟨rfl, ?_, ?_⟩
    · show ((L3.buf.drop L.pos).take (L3.pos - L.pos)) = _
      rw [h3buf, h3pos, Nat.add_sub_cancel_left, hsplit, hshape]
      rw [show ds.length + 1 + ((d :: tl).takeWhile p).length
            = ds.length + (1 + ((d :: tl).takeWhile p).length) by omega]
      rw [List.take_append]
      congr 1
      rw [show (1 : Nat) + ((d :: tl).takeWhile p).length
            = ((d :: tl).takeWhile p).length + 1 by omega]
      rw [List.take_succ_cons]
      congr 1
      exact (List.prefix_iff_eq_take.1 (List.takeWhile_prefix _)).symm
    · show L3.pos = _
      exact h3pos
  · intro hdot2 hnod
    have hdot : peek L1 = some '.' := by rw [hpeek1]; exact hdot2
    rw [if_pos hdot]
    have h2pos : (advance L1).2.pos = L.pos + ds.length + 1 := by
      rw [advance_pos_of_peek hdot, h1pos]
    have h2buf : (advance L1).2.buf = L.buf := (advance_buf L1).trans h1buf
    have hpeek2 : peek (advance L1).2 = (after.drop 1).head? := by
      rw [peek, h2buf, h2pos, ← List.head?_drop, hF2]
    rw [if_pos (by rw [hpeek2]; exact hnod)]
    exact ⟨rfl, rfl, h2pos⟩


theorem C8_scan_number_witness :
    ('1').isDigit = true ∧
    (scan_number (mkLexer "12.5".data)).1.type = TokenType.const_float ∧
    (scan_number (mkLexer "12.5".data)).1.lexeme = "12.5".data := by
  refine ⟨by decide, ?_⟩
  have h := C8_scan_number_spec (mkLexer "12.5".data) '1' "12".data ".5".data
    (by decide) (by decide) (by decide) (by decide)
  have h2 := h.2.2.1 '5' [] (by decide) (by decide)
  exact ⟨h2.1, by rw [h2.2.1]; decide⟩

theorem scan_block_commentF_comment_lexeme :
    ∀ (n : Nat) (prev : Option Char) (col0 : Nat) (L : Lexer),
      (scan_block_commentF n prev col0 L).1.type = TokenType.comment →
      (scan_block_commentF n prev col0 L).1.lexeme = "/* */".data := by
  intro n
  induction n with
  | zero =>
    intro prev col0 L h
    simp [scan_block_commentF, make] at h
  | succ n ih =>
    intro prev col0 L h
    rw [scan_block_commentF] at h ⊢
    cases ha : advance L with
    | mk o L1 =>
      rw [ha] at h
      cases o with
      | none => simp [make] at h
      | some cur =>
        dsimp only at h ⊢
        split_ifs at h ⊢ with h1
        · simp [make]
        · exact ih (some cur) col0 L1 h

/-! ### Claim C10: comment token lexemes -/

/-- C10: comment tokens never retain the comment text: a line comment
token's lexeme is exactly "//", and every comment token produced by
`scan_slash_comment_or_op` (in particular every terminated block comment)
has lexeme "//" or "/* */", so the comment content is not recoverable. -/
theorem C10_comment_lexemes (L : Lexer) :
    (peek L = some '/' → peek (advance L).2 = some '/' →
      (scan_slash_comment_or_op L).1.type = TokenType.comment ∧
      (scan_slash_comment_or_op L).1.lexeme = "//".data) ∧
    ((scan_slash_comment_or_op L).1.type = TokenType.comment →
      (scan_slash_comment_or_op L).1.lexeme = "//".data ∨
      (scan_slash_comment_or_op L).1.lexeme = "/* */".data) := by
  constructor
  · intro h1 h2
    simp only [scan_slash_comment_or_op, matchc_of_peek h1]
    rw [if_pos (by simp)]
    simp only [matchc_of_peek h2]
    rw [if_pos (by simp)]
    exact ⟨rfl, rfl⟩
  · intro h
    by_cases h1 : peek L = some '/'
    · simp only [scan_slash_comment_or_op, matchc_of_peek h1] at h ⊢
      rw [if_pos (by simp)] at h ⊢
      by_cases h2 : peek (advance L).2 = some '/'
      · left
        simp only [matchc_of_peek h2] at h ⊢
        rw [if_pos (by simp)] at h ⊢
        rfl
      · simp only [matchc_not_peek h2] at h ⊢
        rw [if_neg (by simp)] at h ⊢
        by_cases h3 : peek (advance L).2 = some '*'
        · right
          simp only [matchc_of_peek h3] at h ⊢
          rw [if_pos (by simp)] at h ⊢
          exact scan_block_commentF_comment_lexeme _ _ _ _ h
        · simp only [matchc_not_peek h3] at h ⊢
          rw [if_neg (by simp)] at h ⊢
          simp [make] at h
    · simp only [scan_slash_comment_or_op, matchc_not_peek h1] at h ⊢
      rw [if_neg (by simp)] at h ⊢
      cases ha : advance L with
      | mk o L1 =>
        rw [ha] at h
        cases o <;> simp [make] at h

theorem C10_comment_lexemes_witness :
    (scan_slash_comment_or_op (mkLexer "// hi".data)).1.type = TokenType.comment ∧
    (scan_slash_comment_or_op (mkLexer "// hi".data)).1.lexeme = "//".data :=
  ⟨by decide, ((C10_comment_lexemes (mkLexer "// hi".data)).1 (by decide) (by decide)).2⟩

end KSharp

namespace KSharpParse

theorem processLine_id_row (toks : List ParserToken) :
    processLine toks "| x | identifier |".data =
      if toks.length < MAX_TOKENS
      then toks ++ [{ kind := .PT_IDENTIFIER, lexeme := "x".data }] else toks := rfl

theorem foldl_id_rows : ∀ (n : Nat) (toks : List ParserToken),
    (List.replicate n "| x | identifier |".data).foldl processLine toks =
      toks ++ List.replicate (min n (MAX_TOKENS - toks.length))
        { kind := .PT_IDENTIFIER, lexeme := "x".data } := by
  intro n
  induction n with
  | zero => intro toks; simp
  | succ n ih =>
    intro toks
    rw [List.replicate_succ, List.foldl_cons, processLine_id_row]
    by_cases h : toks.length < MAX_TOKENS
    · rw [if_pos h, ih]
      rw [List.append_assoc]
      congr 1
      rw [List.singleton_append, List.length_append, List.length_singleton]
      rw [show MAX_TOKENS - (toks.length + 1) = MAX_TOKENS - toks.length - 1 by omega]
      rw [← List.replicate_succ]
      congr 1
      rw [MAX_TOKENS] at h ⊢
      omega
    · rw [if_neg h, ih]
      have h1 : MAX_TOKENS - toks.length = 0 := by
        rw [MAX_TOKENS] at h ⊢
        omega
      simp [h1]

/-! ### Claim C2: loader capacity -/

/-- C2: the loading loop caps stored tokens at MAX_TOKENS, but the final
synthetic-eof append has no capacity check: a table of 2001 data rows
leaves the loader with 2001 stored tokens, one beyond MAX_TOKENS (in the C
code this is an out-of-bounds write to g_tokens[2000]). -/
theorem C2_loader_overflow_at_2001_rows :
    MAX_TOKENS = 2000 ∧
    (load_tokens_from_symbol_table
      (List.replicate 2001 "| x | identifier |".data)).length = MAX_TOKENS + 1 := by
  refine ⟨rfl, ?_⟩
  rw [load_tokens_from_symbol_table]
  have h := foldl_id_rows 2001 []
  rw [List.nil_append] at h
  rw [h]
  rw [show min 2001 (MAX_TOKENS - ([] : List ParserToken).length) = 2000 by rw [MAX_TOKENS]; simp]
  have hlast : (List.replicate 2000
      ({ kind := .PT_IDENTIFIER, lexeme := "x".data } : ParserToken)).getLast?
      = some { kind := .PT_IDENTIFIER, lexeme := "x".data } := by
    rw [List.replicate_succ', List.getLast?_concat]
  rw [if_pos]
  · rw [List.length_append, List.length_replicate]
    rfl
  · rw [hlast]
    simp

/-! ### Claim C9: parser token access stays in bounds -/

/-- C9: for a non-empty loaded token sequence, `cur_tok` reads the token
at the current index while the index is within the sequence and the last
stored token once the index reaches or passes the count, and `next_tok`
never moves the index beyond count - 1, so the parser never reads outside
the loaded sequence. -/
theorem C9_cur_next_tok_in_bounds (toks : List ParserToken) (s : PState) (hne : toks ≠ []) :
    (∀ h : s.idx < toks.length, cur_tok toks s = toks.get ⟨s.idx, h⟩) ∧
    (toks.length ≤ s.idx → cur_tok toks s = toks.getLast hne) ∧
    (s.idx ≤ toks.length - 1 → (next_tok toks s).idx ≤ toks.length - 1) := by
  refine ⟨?_, ?_, ?_⟩
  · intro h
    rw [cur_tok, if_neg (by omega)]
    rw [List.get?_eq_getElem?, List.getElem?_eq_getElem h]
    rfl
  · intro h
    rw [cur_tok, if_pos (by omega)]
    rw [List.getLast?_eq_getLast _ hne]
    rfl
  · intro h
    rw [next_tok]
    split_ifs with h2
    · show s.idx + 1 ≤ toks.length - 1
      omega
    · exact h

theorem C9_cur_next_tok_in_bounds_witness :
    ([eofTok] ≠ [] ∧
      cur_tok [eofTok] startState = [eofTok].get ⟨0, by decide⟩ ∧
      (next_tok [eofTok] startState).idx ≤ 0) := by
  have hne : [eofTok] ≠ [] := by decide
  have h := C9_cur_next_tok_in_bounds [eofTok] startState hne
  exact ⟨hne, h.1 (by decide), h.2.2 (by decide)⟩
end KSharpParse

namespace KSharpParse

theorem dropWhile_replicate_space (p : Char → Bool) (hp : p ' ' = true) :
    ∀ k, (List.replicate k ' ').dropWhile p = [] := by
  intro k
  induction k with
  | zero => rfl
  | succ k ih => rw [List.replicate_succ, List.dropWhile_cons_of_pos hp, ih]

theorem dropWhile_append_all {p : Char → Bool} {a b : List Char}
    (h : a.dropWhile p = []) : (a ++ b).dropWhile p = b.dropWhile p := by
  rw [List.dropWhile_append, h]
  rfl

theorem takeWhile_append_all {p : Char → Bool} {a b : List Char}
    (h : ∀ c ∈ a, p c = true) : (a ++ b).takeWhile p = a ++ b.takeWhile p := by
  rw [List.takeWhile_append, KSharp.takeWhile_all h]
  rw [if_pos rfl]

/-- The right-trim predicate of `trim`. -/
theorem trim_of_ends {w : List Char}
    (hne : w ≠ [])
    (hhead : ∀ c, w.head? = some c → c_isspace c = false)
    (hlast : ∀ c, w.getLast? = some c → (c = '\n' || c = '\r' || c_isspace c) = false) :
    ∀ k, trim (w ++ List.replicate k ' ') = w := by
  intro k
  rw [trim]
  have hsp : (fun c => c = '\n' || c = '\r' || c_isspace c) ' ' = true := by decide
  rw [List.reverse_append, List.reverse_replicate,
    dropWhile_append_all (dropWhile_replicate_space _ hsp _)]
  cases hrev : w.reverse with
  | nil => exact absurd (by simpa using hrev) hne
  | cons d tail =>
    have hd : w.getLast? = some d := by
      rw [← List.head?_reverse, hrev]
      rfl
    rw [List.dropWhile_cons_of_neg (by rw [hlast d hd]; exact fun hcon => by cases hcon)]
    rw [← hrev, List.reverse_reverse]
    cases hw : w with
    | nil => exact absurd hw hne
    | cons e rest =>
      have he : w.head? = some e := by rw [hw]; rfl
      rw [List.dropWhile_cons_of_neg (by rw [hhead e he]; exact fun hcon => by cases hcon)]
end KSharpParse

namespace KSharpParse

theorem str_contains_go_mem {c : Char} {s : List Char} :
    ∀ {l : List Char}, str_contains_go (c :: s) l = true → c ∈ l := by
  intro l
  induction l with
  | nil => intro h; cases h
  | cons a l' ih =>
    intro h
    rw [str_contains_go, Bool.or_eq_true] at h
    rcases h with h | h
    · rw [str_starts_with] at h
      split_ifs at h with he
      · rw [he]
        exact List.mem_cons_self _ _
    · exact List.mem_cons_of_mem _ (ih h)

theorem str_contains_mem {c : Char} {s l : List Char}
    (h : str_contains l (c :: s) = true) : c ∈ l := by
  rw [str_contains] at h
  exact str_contains_go_mem (by simpa using h)

theorem str_starts_with_self_append : ∀ (p rest : List Char),
    str_starts_with (p ++ rest) p = true := by
  intro p
  induction p with
  | nil => intro rest; simp [str_starts_with]
  | cons a p' ih =>
    intro rest
    rw [List.cons_append, str_starts_with, if_pos rfl]
    exact ih rest

theorem replicate_absorb (k : Nat) (x : Char) (X : List Char) :
    List.replicate k x ++ (x :: X) = List.replicate (k + 1) x ++ X := by
  rw [List.replicate_succ', List.append_assoc, List.singleton_append]

theorem scan_field_take (u : List Char) (k : Nat) (rest : List Char) (hbar : '|' ∉ u) :
    (u ++ (List.replicate k ' ' ++ ('|' :: rest))).takeWhile (fun c => c ≠ '|') =
      u ++ List.replicate k ' ' := by
  have h1 : ∀ c ∈ u, (fun c => decide (c ≠ '|')) c = true := by
    intro c hc
    simp only [decide_eq_true_eq]
    intro hcon
    exact hbar (hcon ▸ hc)
  have h2 : ∀ c ∈ List.replicate k ' ', (fun c => decide (c ≠ '|')) c = true := by
    intro c hc
    rw [List.eq_of_mem_replicate hc]
    decide
  rw [takeWhile_append_all h1, takeWhile_append_all h2,
    List.takeWhile_cons_of_neg (by decide), List.append_nil]

theorem scan_field_drop (u : List Char) (k : Nat) (rest : List Char) :
    (u ++ (List.replicate k ' ' ++ ('|' :: rest))).drop (u.length + k) = '|' :: rest := by
  rw [← List.append_assoc]
  rw [show u.length + k = (u ++ List.replicate k ' ').length by simp]
  exact List.drop_left _ _

theorem field_step (e : Char) (u : List Char) (k : Nat) (rest : List Char)
    (hbar : '|' ∉ (e :: u)) (he : c_isspace e = false)
    (hlen : (e :: u).length + k ≤ 127) :
    ((' ' :: ((e :: u) ++ (List.replicate k ' ' ++ ('|' :: rest)))).dropWhile c_isspace =
        (e :: u) ++ (List.replicate k ' ' ++ ('|' :: rest))) ∧
    ((((e :: u) ++ (List.replicate k ' ' ++ ('|' :: rest))).takeWhile (fun c => c ≠ '|')).take 127 =
        (e :: u) ++ List.replicate k ' ') ∧
    (((e :: u) ++ (List.replicate k ' ' ++ ('|' :: rest))).drop
        ((e :: u) ++ List.replicate k ' ').length = '|' :: rest) := by
  have htake := scan_field_take (e :: u) k rest hbar
  have hdropw : (' ' :: ((e :: u) ++ (List.replicate k ' ' ++ ('|' :: rest)))).dropWhile c_isspace =
      (e :: u) ++ (List.replicate k ' ' ++ ('|' :: rest)) := by
    rw [List.dropWhile_cons_of_pos (by decide), List.cons_append,
      List.dropWhile_cons_of_neg (by simp [he])]
  have hlenf : ((e :: u) ++ List.replicate k ' ').length = (e :: u).length + k := by
    simp only [List.length_append, List.length_cons, List.length_replicate]
  have htake127 : (((e :: u) ++ (List.replicate k ' ' ++ ('|' :: rest))).takeWhile
      (fun c => c ≠ '|')).take 127 = (e :: u) ++ List.replicate k ' ' := by
    rw [htake, List.take_of_length_le (by rw [hlenf]; omega)]
  refine ⟨hdropw, htake127, ?_⟩
  rw [hlenf, scan_field_drop]

theorem write_row_line_shape (e f : Char) (w' l' : List Char)
    (hw : (e :: w').length ≤ 20) (hl : (f :: l').length ≤ 16) :
    KSharp.write_row_line (e :: w') (f :: l') =
      '|' :: ' ' :: ((e :: w') ++ (List.replicate (21 - (e :: w').length) ' ' ++
        ('|' :: (' ' :: ((f :: l') ++ (List.replicate (17 - (f :: l').length) ' ' ++
          ('|' :: []))))))) := by
  have h21 : 21 - (e :: w').length = (20 - (e :: w').length) + 1 := by
    simp only [List.length_cons] at hw ⊢
    omega
  have h17 : 17 - (f :: l').length = (16 - (f :: l').length) + 1 := by
    simp only [List.length_cons] at hl ⊢
    omega
  rw [KSharp.write_row_line, KSharp.clip20, if_neg (by omega), KSharp.padRight,
    KSharp.padRight, h21, h17]
  simp [List.replicate_succ', List.append_assoc]

theorem sscanf_row_line (e f : Char) (w' l' : List Char)
    (hw : (e :: w').length ≤ 20) (hl : (f :: l').length ≤ 16)
    (hwbar : '|' ∉ (e :: w')) (hlbar : '|' ∉ (f :: l'))
    (he : c_isspace e = false) (hf : c_isspace f = false) :
    sscanf_row (KSharp.write_row_line (e :: w') (f :: l')) =
      some ((e :: w') ++ List.replicate (21 - (e :: w').length) ' ',
            (f :: l') ++ List.replicate (17 - (f :: l').length) ' ') := by
  have h21 : 21 - (e :: w').length = (20 - (e :: w').length) + 1 := by
    simp only [List.length_cons] at hw ⊢
    omega
  have h17 : 17 - (f :: l').length = (16 - (f :: l').length) + 1 := by
    simp only [List.length_cons] at hl ⊢
    omega
  have hline := write_row_line_shape e f w' l' hw hl
  obtain ⟨hd1, ht1, hr1⟩ := field_step e w' (21 - (e :: w').length)
    (' ' :: ((f :: l') ++ (List.replicate (17 - (f :: l').length) ' ' ++ ('|' :: []))))
    hwbar he (by simp only [List.length_cons] at hw ⊢; omega)
  obtain ⟨hd2, ht2, hr2⟩ := field_step f l' (17 - (f :: l').length) [] hlbar hf
    (by simp only [List.length_cons] at hl ⊢; omega)
  rw [hline]
  simp only [sscanf_row]
  rw [hd1, ht1]
  rw [if_neg (by simp)]
  rw [hr1]
  split
  · rename_i r2 heq
    injection heq with h1 h2
    subst h2
    rw [hd2, ht2]
    rw [if_neg (by simp)]
  · rename_i h
    exact absurd rfl (h _)

end KSharpParse

namespace KSharpParse

theorem head_cond_of {w : List Char}
    (h : w.head?.elim true (fun c => !c_isspace c) = true) :
    ∀ c, w.head? = some c → c_isspace c = false := by
  intro c hc
  rw [hc] at h
  simpa using h

theorem last_cond_of {w : List Char}
    (h : w.getLast?.elim true (fun c => !(c = '\n' || c = '\r' || c_isspace c)) = true) :
    ∀ c, w.getLast? = some c → (c = '\n' || c = '\r' || c_isspace c) = false := by
  intro c hc
  rw [hc] at h
  simpa using h

theorem good_lexeme_spec {w : List Char} (h : good_lexeme w = true) :
    w ≠ [] ∧ w.length ≤ 20 ∧ '|' ∉ w ∧ 'T' ∉ w ∧
    (∀ c, w.head? = some c → c_isspace c = false) ∧
    (∀ c, w.getLast? = some c → (c = '\n' || c = '\r' || c_isspace c) = false) := by
  rw [good_lexeme] at h
  simp only [Bool.and_eq_true] at h
  obtain ⟨⟨⟨⟨⟨h1, h2⟩, h3⟩, h4⟩, h5⟩, h6⟩ := h
  refine ⟨?_, of_decide_eq_true h2, by simpa using h3, by simpa using h4,
    head_cond_of h5, last_cond_of h6⟩
  intro hnil
  rw [hnil] at h1
  simp at h1

theorem tname_good (ty : KSharp.TokenType) :
    KSharp.tname ty ≠ [] ∧ (KSharp.tname ty).length ≤ 16 ∧ '|' ∉ KSharp.tname ty ∧
    'T' ∉ KSharp.tname ty ∧
    (KSharp.tname ty).head?.elim true (fun c => !c_isspace c) = true ∧
    (KSharp.tname ty).getLast?.elim true (fun c => !(c = '\n' || c = '\r' || c_isspace c))
      = true := by
  cases ty <;> decide

theorem rtrim_prefix (u v : List Char) (hne : u ≠ [])
    (hlast : ∀ c, u.getLast? = some c → (c = '\n' || c = '\r' || c_isspace c) = false) :
    ∃ t, ((u ++ v).reverse.dropWhile (fun c => c = '\n' || c = '\r' || c_isspace c)).reverse
      = u ++ t := by
  rw [List.reverse_append, List.dropWhile_append]
  split_ifs with h
  · refine ⟨[], ?_⟩
    rw [List.append_nil]
    obtain ⟨c, rest, hcr⟩ : ∃ c rest, u.reverse = c :: rest := by
      cases hu : u.reverse with
      | nil => exact absurd (by simpa using hu) hne
      | cons c rest => exact ⟨c, rest, rfl⟩
    have hcl : u.getLast? = some c := by rw [← List.head?_reverse, hcr]; rfl
    rw [hcr, List.dropWhile_cons_of_neg (by rw [hlast c hcl]; exact fun hc => by cases hc),
      ← hcr, List.reverse_reverse]
  · exact ⟨(v.reverse.dropWhile (fun c => c = '\n' || c = '\r' || c_isspace c)).reverse,
      by rw [List.reverse_append, List.reverse_reverse]⟩

theorem trim_source_prefix (src : List Char) :
    ∃ t, trim ("Source: ".data ++ src) = "Source:".data ++ t := by
  have hre : ("Source: ".data : List Char) ++ src = "Source:".data ++ (' ' :: src) := rfl
  obtain ⟨t, ht⟩ := rtrim_prefix "Source:".data (' ' :: src) (by decide)
    (by intro c hc
        rw [show (("Source:".data : List Char)).getLast? = some ':' from rfl] at hc
        injection hc with h
        rw [← h]
        decide)
  refine ⟨t, ?_⟩
  rw [trim, hre, ht]
  rw [show (("Source:".data : List Char)) ++ t = 'S' :: ("ource:".data ++ t) from rfl]
  rw [List.dropWhile_cons_of_neg (by decide)]

theorem processLine_source (toks : List ParserToken) (src : List Char) :
    processLine toks ("Source: ".data ++ src) = toks := by
  obtain ⟨t, ht⟩ := trim_source_prefix src
  simp only [processLine]
  rw [ht]
  rw [if_neg (by rw [show (("Source:".data : List Char)) ++ t =
    'S' :: ("ource:".data ++ t) from rfl]; simp)]
  rw [if_pos (str_starts_with_self_append _ _)]

theorem processLine_border (toks : List ParserToken) :
    processLine toks KSharp.borderLine = toks := rfl

theorem processLine_header (toks : List ParserToken) :
    processLine toks (KSharp.write_row_line "Lexeme".data "Token".data) = toks := rfl

theorem processLine_row (toks : List ParserToken) (u1 u2 : List Char)
    (h1ne : u1 ≠ []) (h1len : u1.length ≤ 20) (h1bar : '|' ∉ u1) (h1T : 'T' ∉ u1)
    (h1hd : ∀ c, u1.head? = some c → c_isspace c = false)
    (h1last : ∀ c, u1.getLast? = some c → (c = '\n' || c = '\r' || c_isspace c) = false)
    (h2ne : u2 ≠ []) (h2len : u2.length ≤ 16) (h2bar : '|' ∉ u2) (h2T : 'T' ∉ u2)
    (h2hd : ∀ c, u2.head? = some c → c_isspace c = false)
    (h2last : ∀ c, u2.getLast? = some c → (c = '\n' || c = '\r' || c_isspace c) = false)
    (hcap : toks.length < MAX_TOKENS) :
    processLine toks (KSharp.write_row_line u1 u2) =
      toks ++ [{ kind := map_kind u2, lexeme := u1 }] := by
  obtain ⟨e, w', rfl⟩ : ∃ e w', u1 = e :: w' := by
    cases u1 with
    | nil => exact absurd rfl h1ne
    | cons e w' => exact ⟨e, w', rfl⟩
  obtain ⟨f, l', rfl⟩ : ∃ f l', u2 = f :: l' := by
    cases u2 with
    | nil => exact absurd rfl h2ne
    | cons f l' => exact ⟨f, l', rfl⟩
  have he : c_isspace e = false := h1hd e rfl
  have hf : c_isspace f = false := h2hd f rfl
  have hshape := write_row_line_shape e f w' l' h1len h2len
  have hhead_line : (KSharp.write_row_line (e :: w') (f :: l')).head? = some '|' := by
    rw [hshape]
    rfl
  have hlast_line : (KSharp.write_row_line (e :: w') (f :: l')).getLast? = some '|' := by
    rw [hshape]
    rw [show '|' :: ' ' :: ((e :: w') ++ (List.replicate (21 - (e :: w').length) ' ' ++
        ('|' :: (' ' :: ((f :: l') ++ (List.replicate (17 - (f :: l').length) ' ' ++
          ('|' :: []))))))) =
      ('|' :: ' ' :: ((e :: w') ++ (List.replicate (21 - (e :: w').length) ' ' ++
        ('|' :: (' ' :: ((f :: l') ++ List.replicate (17 - (f :: l').length) ' ')))))) ++
        ['|'] from by simp [List.append_assoc]]
    exact List.getLast?_concat _
  have hTline : 'T' ∉ KSharp.write_row_line (e :: w') (f :: l') := by
    rw [hshape]
    intro hm
    simp only [List.mem_cons, List.mem_append, List.mem_replicate, List.mem_singleton] at hm
    rcases hm with h | h | h | h
    · exact absurd h (by decide)
    · exact absurd h (by decide)
    · exact h1T (List.mem_cons.2 h)
    · rcases h with ⟨_, h⟩ | h | h | h | ⟨_, h⟩ | h
      · exact absurd h (by decide)
      · exact absurd h (by decide)
      · exact absurd h (by decide)
      · exact h2T (List.mem_cons.2 h)
      · exact absurd h (by decide)
      · exact absurd h (by decide)
  have htrim : trim (KSharp.write_row_line (e :: w') (f :: l')) =
      KSharp.write_row_line (e :: w') (f :: l') := by
    have h0 := trim_of_ends
      (show KSharp.write_row_line (e :: w') (f :: l') ≠ [] from by rw [hshape]; simp)
      (by intro c hc
          rw [hhead_line] at hc
          injection hc with h
          rw [← h]
          decide)
      (by intro c hc
          rw [hlast_line] at hc
          injection hc with h
          rw [← h]
          decide)
      0
    simpa using h0
  have hTok : str_contains (KSharp.write_row_line (e :: w') (f :: l')) "Token".data
      = false := by
    cases hsc : str_contains (KSharp.write_row_line (e :: w') (f :: l')) "Token".data with
    | false => rfl
    | true =>
      rw [show ("Token".data : List Char) = 'T' :: "oken".data from rfl] at hsc
      exact absurd (str_contains_mem hsc) hTline
  have hc1 : ¬((KSharp.write_row_line (e :: w') (f :: l')).isEmpty = true) := by
    rw [hshape]
    simp
  have hc2 : ¬(str_starts_with (KSharp.write_row_line (e :: w') (f :: l'))
      "Source:".data = true) := by
    rw [hshape, show ("Source:".data : List Char) = 'S' :: "ource:".data from rfl]
    simp [str_starts_with]
  have hc3 : ¬(((KSharp.write_row_line (e :: w') (f :: l')).head? = some '+' ||
      (KSharp.write_row_line (e :: w') (f :: l')).head? = some '-') = true) := by
    rw [hshape]
    simp
  have hc4 : ¬((str_contains (KSharp.write_row_line (e :: w') (f :: l')) "Lexeme".data &&
      str_contains (KSharp.write_row_line (e :: w') (f :: l')) "Token".data) = true) := by
    simp [hTok]
  have hc5 : ¬((KSharp.write_row_line (e :: w') (f :: l')).head? ≠ some '|') := by
    rw [hhead_line]
    simp
  have htk : (e :: w').take (MAX_LEXEME - 1) = e :: w' := by
    apply List.take_of_length_le
    simp only [MAX_LEXEME]
    simp only [List.length_cons] at h1len ⊢
    omega
  simp only [processLine]
  rw [htrim]
  rw [sscanf_row_line e f w' l' h1len h2len h1bar h2bar he hf]
  rw [if_neg hc1, if_neg hc2, if_neg hc3, if_neg hc4, if_neg hc5]
  dsimp only
  rw [trim_of_ends (by simp) (by simpa using h1hd) h1last _,
    trim_of_ends (by simp) (by simpa using h2hd) h2last _]
  rw [if_pos hcap, htk]

theorem fold_rows (ts : List KSharp.Token) :
    ∀ acc : List ParserToken,
    (∀ t ∈ ts, good_lexeme (KSharp.shown t) = true) →
    acc.length + ts.length ≤ MAX_TOKENS →
    (ts.map (fun t => KSharp.write_row_line (KSharp.shown t)
        (KSharp.tname t.type))).foldl processLine acc =
      acc ++ ts.map (fun t =>
        { kind := map_kind (KSharp.tname t.type), lexeme := KSharp.shown t }) := by
  induction ts with
  | nil => intro acc _ _; simp
  | cons t ts ih =>
    intro acc hgood hlen
    obtain ⟨g1, g2, g3, g4, g5, g6⟩ := good_lexeme_spec (hgood t (List.mem_cons_self _ _))
    obtain ⟨n1, n2, n3, n4, n5, n6⟩ := tname_good t.type
    have hcap1 : acc.length < MAX_TOKENS := by
      simp only [List.length_cons] at hlen
      omega
    have hlen2 : (acc ++ [({ kind := map_kind (KSharp.tname t.type), lexeme := KSharp.shown t } : ParserToken)]).length + ts.length ≤ MAX_TOKENS := by
      simp only [List.length_append, List.length_singleton, List.length_cons,
        List.length_nil] at hlen ⊢
      omega
    rw [List.map_cons, List.foldl_cons,
      processLine_row acc (KSharp.shown t) (KSharp.tname t.type) g1 g2 g3 g4 g5 g6
        n1 n2 n3 n4 (head_cond_of n5) (last_cond_of n6) hcap1,
      ih (acc ++ [({ kind := map_kind (KSharp.tname t.type), lexeme := KSharp.shown t } : ParserToken)]) (fun u hu => hgood u (List.mem_cons_of_mem _ hu)) hlen2,
      List.map_cons, List.append_assoc, List.singleton_append]

/-- C7 (corrected): round trip through the symbol table.  Serializing a
token sequence with the table writer and decoding it with the loader
reproduces, for every token whose displayed lexeme is nonempty, at most
20 characters, free of the column separator and of the letter used by
the header check, and not starting or ending in whitespace, exactly the
pair of its display lexeme and the parser kind mapped from its printed
type name; the loader then appends its synthetic eof token unless the
decoded stream already ends in one.  The claim as literally stated
(length, kinds and lexemes preserved whenever lexemes fit the display
width) is refuted by the companion counterexample. -/
theorem C7_serialize_load_roundtrip (src : List Char) (ts : List KSharp.Token)
    (hgood : ∀ t ∈ ts, good_lexeme (KSharp.shown t) = true)
    (hcap : ts.length ≤ MAX_TOKENS) :
    load_tokens_from_symbol_table (KSharp.serialize_table src ts) =
      (if (ts.map (fun t => ({ kind := map_kind (KSharp.tname t.type), lexeme := KSharp.shown t } : ParserToken))).isEmpty || ((ts.map (fun t => ({ kind := map_kind (KSharp.tname t.type), lexeme := KSharp.shown t } : ParserToken))).getLast?.map ParserToken.kind) ≠ some .PT_EOF then
        ts.map (fun t => ({ kind := map_kind (KSharp.tname t.type), lexeme := KSharp.shown t } : ParserToken)) ++ [eofTok]
      else ts.map (fun t => ({ kind := map_kind (KSharp.tname t.type), lexeme := KSharp.shown t } : ParserToken))) := by
  rw [load_tokens_from_symbol_table, KSharp.serialize_table]
  rw [List.foldl_append, List.foldl_append]
  rw [show ((["Source: ".data ++ src, KSharp.borderLine,
      KSharp.write_row_line "Lexeme".data "Token".data,
      KSharp.borderLine] : List (List Char)).foldl processLine []) = [] from by
    simp only [List.foldl_cons, List.foldl_nil]
    rw [processLine_source, processLine_border, processLine_header, processLine_border]]
  rw [fold_rows ts [] hgood (by simpa using hcap)]
  rw [List.nil_append, List.foldl_cons, List.foldl_nil, processLine_border]

/-- C7, counterexample to the claim as stated: the two-token sequence
op_logic "||", eof — displayed lexemes all within the 20-column width —
serializes to a table the loader decodes as just its synthetic eof
token: the "||" row's first data field scans as empty (the lexeme's
first character is the column separator), so the row is dropped, and so
is the eof row with its empty lexeme; neither length nor lexemes are
preserved. -/
theorem C7_counterexample_logical_or :
    load_tokens_from_symbol_table (KSharp.serialize_table []
      [{ type := KSharp.TokenType.op_logic, lexeme := "||".data, line := 1, col := 1, extra := none },
       { type := KSharp.TokenType.eof, lexeme := [], line := 1, col := 3, extra := none }]) = [eofTok] ∧
    ([eofTok] : List ParserToken).length ≠ 2 := by
  constructor
  · decide
  · decide

theorem C7_serialize_load_roundtrip_witness :
    (∀ t ∈ ([{ type := KSharp.TokenType.identifier, lexeme := "x".data, line := 1, col := 1, extra := none }] : List KSharp.Token), good_lexeme (KSharp.shown t) = true) ∧
    load_tokens_from_symbol_table (KSharp.serialize_table []
      [{ type := KSharp.TokenType.identifier, lexeme := "x".data, line := 1, col := 1, extra := none }]) =
      [{ kind := ParserTokKind.PT_IDENTIFIER, lexeme := "x".data }, eofTok] := by
  constructor
  · decide
  · rw [C7_serialize_load_roundtrip []
      [{ type := KSharp.TokenType.identifier, lexeme := "x".data, line := 1, col := 1, extra := none }]
      (by decide) (by decide)]
    decide

section
variable (toks : List ParserToken)

theorem next_tok_le (s : PState) : s.idx ≤ (next_tok toks s).idx := by
  rw [next_tok]
  split_ifs <;> simp

theorem next_tok_le_one (s : PState) : (next_tok toks s).idx ≤ s.idx + 1 := by
  rw [next_tok]
  split_ifs <;> simp

theorem next_tok_stuck (s : PState) : (next_tok toks s).stuck = s.stuck := by
  rw [next_tok]
  split_ifs <;> rfl

theorem next_tok_inc (s : PState) (h : s.idx < toks.length - 1) :
    (next_tok toks s).idx = s.idx + 1 := by
  rw [next_tok, if_pos h]

theorem syntax_error_idx (s : PState) : (syntax_error s).idx = s.idx := rfl

theorem syntax_error_stuck (s : PState) : (syntax_error s).stuck = s.stuck := rfl

theorem cur_ne_eof_lt (hlast : toks.getLast?.map ParserToken.kind = some ParserTokKind.PT_EOF)
    (s : PState) (h : (cur_tok toks s).kind ≠ ParserTokKind.PT_EOF) :
    s.idx < toks.length - 1 := by
  obtain ⟨t, ht, htk⟩ : ∃ t, toks.getLast? = some t ∧ t.kind = ParserTokKind.PT_EOF := by
    cases hg : toks.getLast? with
    | none => rw [hg] at hlast; cases hlast
    | some t =>
      rw [hg] at hlast
      exact ⟨t, rfl, by injection hlast⟩
  by_contra hge
  apply h
  rcases Nat.lt_or_ge s.idx toks.length with hlt | hge2
  · have hidx : s.idx = toks.length - 1 := by omega
    have hlen : toks.length ≠ 0 := by
      intro h0
      rw [List.length_eq_zero] at h0
      rw [h0] at ht
      cases ht
    rw [cur_tok, if_neg (by omega), hidx]
    rw [show toks.get? (toks.length - 1) = toks.getLast? from (List.getLast?_eq_get? toks).symm]
    rw [ht]
    exact htk
  · rw [cur_tok, if_pos (by omega), ht]
    exact htk

end

section
variable (toks : List ParserToken)

theorem expect_symbol_pos (n : Nat) (sym : List Char) (s : PState)
    (h : (cur_tok toks s).kind = ParserTokKind.PT_SYMBOL ∧ str_eq (cur_tok toks s).lexeme sym) :
    expect_symbol toks n sym s = next_tok toks s := by
  rw [expect_symbol, accept_symbol, if_pos h]
  rfl

theorem expect_symbol_neg (n : Nat) (sym : List Char) (s : PState)
    (h : ¬((cur_tok toks s).kind = ParserTokKind.PT_SYMBOL ∧
      str_eq (cur_tok toks s).lexeme sym)) :
    expect_symbol toks n sym s = panic_recover toks n (syntax_error s) := by
  rw [expect_symbol, accept_symbol, if_neg h]
  rfl

theorem cur_tok_syntax_error (s : PState) :
    cur_tok toks (syntax_error s) = cur_tok toks s := rfl

theorem parse_fuel (hlast : toks.getLast?.map ParserToken.kind = some ParserTokKind.PT_EOF) :
    ∀ n : Nat,
    (∀ s, 100 * (toks.length - s.idx) < n →
      (panic_recover toks n s).stuck = s.stuck ∧ s.idx ≤ (panic_recover toks n s).idx ∧
      ((cur_tok toks s).kind ≠ ParserTokKind.PT_EOF → s.idx < (panic_recover toks n s).idx)) ∧
    (∀ s, 100 * (toks.length - s.idx) + 1 < n →
      (parse_factor toks n s).stuck = s.stuck ∧ s.idx ≤ (parse_factor toks n s).idx) ∧
    (∀ s, 100 * (toks.length - s.idx) + 1 < n →
      (parse_term_ops toks n s).stuck = s.stuck ∧ s.idx ≤ (parse_term_ops toks n s).idx) ∧
    (∀ s, 100 * (toks.length - s.idx) + 2 < n →
      (parse_term toks n s).stuck = s.stuck ∧ s.idx ≤ (parse_term toks n s).idx) ∧
    (∀ s, 100 * (toks.length - s.idx) + 1 < n →
      (parse_simple_ops toks n s).stuck = s.stuck ∧ s.idx ≤ (parse_simple_ops toks n s).idx) ∧
    (∀ s, 100 * (toks.length - s.idx) + 3 < n →
      (parse_simple_expr toks n s).stuck = s.stuck ∧ s.idx ≤ (parse_simple_expr toks n s).idx) ∧
    (∀ s, 100 * (toks.length - s.idx) + 4 < n →
      (parse_expression toks n s).stuck = s.stuck ∧ s.idx ≤ (parse_expression toks n s).idx) ∧
    (∀ s, 100 * (toks.length - s.idx) + 5 < n →
      (parse_assign_no_semicolon toks n s).stuck = s.stuck ∧
      s.idx ≤ (parse_assign_no_semicolon toks n s).idx) ∧
    (∀ s, 100 * (toks.length - s.idx) + 5 < n →
      ((parse_assign_stmt toks n s).stuck = s.stuck ∧ s.idx ≤ (parse_assign_stmt toks n s).idx) ∧
      ((cur_tok toks s).kind = ParserTokKind.PT_IDENTIFIER →
        s.idx < (parse_assign_stmt toks n s).idx)) ∧
    (∀ s, 100 * (toks.length - s.idx) + 5 < n → (cur_tok toks s).kind ≠ ParserTokKind.PT_EOF →
      (parse_decl_stmt toks n s).stuck = s.stuck ∧ s.idx < (parse_decl_stmt toks n s).idx) ∧
    (∀ s, 100 * (toks.length - s.idx) + 5 < n → (cur_tok toks s).kind ≠ ParserTokKind.PT_EOF →
      (parse_input_stmt toks n s).stuck = s.stuck ∧ s.idx < (parse_input_stmt toks n s).idx) ∧
    (∀ s, 100 * (toks.length - s.idx) + 5 < n → (cur_tok toks s).kind ≠ ParserTokKind.PT_EOF →
      (parse_print_stmt toks n s).stuck = s.stuck ∧ s.idx < (parse_print_stmt toks n s).idx) ∧
    (∀ s, 100 * (toks.length - s.idx) + 5 < n → (cur_tok toks s).kind ≠ ParserTokKind.PT_EOF →
      (parse_if_stmt toks n s).stuck = s.stuck ∧ s.idx < (parse_if_stmt toks n s).idx) ∧
    (∀ s, 100 * (toks.length - s.idx) + 5 < n → (cur_tok toks s).kind ≠ ParserTokKind.PT_EOF →
      (parse_while_stmt toks n s).stuck = s.stuck ∧ s.idx < (parse_while_stmt toks n s).idx) ∧
    (∀ s, 100 * (toks.length - s.idx) + 5 < n → (cur_tok toks s).kind ≠ ParserTokKind.PT_EOF →
      (parse_for_stmt toks n s).stuck = s.stuck ∧ s.idx < (parse_for_stmt toks n s).idx) ∧
    (∀ s, 100 * (toks.length - s.idx) + 6 < n →
      ((parse_statement toks n s).stuck = s.stuck ∧ s.idx ≤ (parse_statement toks n s).idx) ∧
      ((cur_tok toks s).kind ≠ ParserTokKind.PT_EOF → s.idx < (parse_statement toks n s).idx)) ∧
    (∀ s, 100 * (toks.length - s.idx) + 7 < n →
      (parse_block_stmts toks n s).stuck = s.stuck ∧ s.idx ≤ (parse_block_stmts toks n s).idx) ∧
    (∀ s, 100 * (toks.length - s.idx) + 7 < n →
      (parse_block toks n s).stuck = s.stuck ∧ s.idx ≤ (parse_block toks n s).idx) ∧
    (∀ s, 100 * (toks.length - s.idx) + 8 < n →
      (parse_stmt_list toks n s).stuck = s.stuck ∧ s.idx ≤ (parse_stmt_list toks n s).idx) ∧
    (∀ s, 100 * (toks.length - s.idx) + 9 < n →
      (parse_program toks n s).stuck = s.stuck ∧ s.idx ≤ (parse_program toks n s).idx) := by
  intro n
  induction n with
  | zero =>
    refine ⟨?_, ?_, ?_, ?_, ?_, ?_, ?_, ?_, ?_, ?_, ?_, ?_, ?_, ?_, ?_, ?_, ?_, ?_, ?_, ?_⟩ <;>
      exact fun s h => absurd h (by omega)
  | succ m ih =>
    obtain ⟨ihpan, ihfac, ihtops, ihterm, ihsops, ihsexp, ihexpr, ihans, ihas, ihdecl,
      ihinp, ihpr, ihif, ihwh, ihfor, ihstmt, ihbs, ihbl, ihsl, ihprog⟩ := ih
    have hexp : ∀ (sym : List Char) (s1 : PState), 100 * (toks.length - s1.idx) < m →
        (expect_symbol toks m sym s1).stuck = s1.stuck ∧
        s1.idx ≤ (expect_symbol toks m sym s1).idx := by
      intro sym s1 hc1
      by_cases ha : (cur_tok toks s1).kind = ParserTokKind.PT_SYMBOL ∧
        str_eq (cur_tok toks s1).lexeme sym
      · rw [expect_symbol_pos toks m sym s1 ha]
        exact ⟨next_tok_stuck toks s1, next_tok_le toks s1⟩
      · rw [expect_symbol_neg toks m sym s1 ha]
        obtain ⟨h1, h2, _⟩ := ihpan (syntax_error s1)
          (show 100 * (toks.length - s1.idx) < m from hc1)
        exact ⟨h1, h2⟩
    refine ⟨?_, ?_, ?_, ?_, ?_, ?_, ?_, ?_, ?_, ?_, ?_, ?_, ?_, ?_, ?_, ?_, ?_, ?_, ?_, ?_⟩
    · intro s hc
      rw [panic_recover]
      split_ifs with h1 h2
      · refine ⟨next_tok_stuck toks s, next_tok_le toks s, fun hg => ?_⟩
        rw [next_tok_inc toks s (cur_ne_eof_lt toks hlast s h1)]
        omega
      · have hlt := cur_ne_eof_lt toks hlast s h1
        have hinc := next_tok_inc toks s hlt
        obtain ⟨hstk, hle, _⟩ := ihpan (next_tok toks s) (by omega)
        exact ⟨by rw [hstk, next_tok_stuck], by omega, fun hg => by omega⟩
      · exact ⟨rfl, le_refl _, fun hg => absurd hg h1⟩
    · intro s hc
      simp only [parse_factor]
      split_ifs with h1 h2 h3 h4 h5 h6 h7 h8 h9 h10 h11 h12
      · have hne : (cur_tok toks s).kind ≠ ParserTokKind.PT_EOF := by rw [h1.1]; decide
        have hlt := cur_ne_eof_lt toks hlast s hne
        have hinc := next_tok_inc toks s hlt
        obtain ⟨hstke, hlee⟩ := ihexpr (next_tok toks s) (by omega)
        have hl2 := next_tok_le toks (parse_expression toks m (next_tok toks s))
        exact ⟨by rw [next_tok_stuck, hstke, next_tok_stuck], by omega⟩
      · have hne : (cur_tok toks s).kind ≠ ParserTokKind.PT_EOF := by rw [h1.1]; decide
        have hlt := cur_ne_eof_lt toks hlast s hne
        have hinc := next_tok_inc toks s hlt
        obtain ⟨hstke, hlee⟩ := ihexpr (next_tok toks s) (by omega)
        exact ⟨by rw [syntax_error_stuck, hstke, next_tok_stuck],
          by rw [syntax_error_idx]; omega⟩
      · exact ⟨next_tok_stuck toks s, next_tok_le toks s⟩
      · exact ⟨next_tok_stuck toks s, next_tok_le toks s⟩
      · obtain ⟨hstk, hle, _⟩ := ihpan (syntax_error s)
          (show 100 * (toks.length - s.idx) < m by omega)
        exact ⟨hstk, hle⟩
    · intro s hc
      simp only [parse_term_ops]
      split_ifs with h1
      · have hne : (cur_tok toks s).kind ≠ ParserTokKind.PT_EOF := by rw [h1.1]; decide
        have hlt := cur_ne_eof_lt toks hlast s hne
        have hinc := next_tok_inc toks s hlt
        obtain ⟨hstkf, hlef⟩ := ihfac (next_tok toks s) (by omega)
        obtain ⟨hstkt, hlet⟩ := ihtops (parse_factor toks m (next_tok toks s)) (by omega)
        exact ⟨by rw [hstkt, hstkf, next_tok_stuck], by omega⟩
      · exact ⟨rfl, le_refl _⟩
    · intro s hc
      simp only [parse_term]
      obtain ⟨hstkf, hlef⟩ := ihfac s (by omega)
      obtain ⟨hstkt, hlet⟩ := ihtops (parse_factor toks m s) (by omega)
      exact ⟨by rw [hstkt, hstkf], by omega⟩
    · intro s hc
      simp only [parse_simple_ops]
      split_ifs with h1
      · have hne : (cur_tok toks s).kind ≠ ParserTokKind.PT_EOF := by rw [h1.1]; decide
        have hlt := cur_ne_eof_lt toks hlast s hne
        have hinc := next_tok_inc toks s hlt
        obtain ⟨hstkf, hlef⟩ := ihterm (next_tok toks s) (by omega)
        obtain ⟨hstkt, hlet⟩ := ihsops (parse_term toks m (next_tok toks s)) (by omega)
        exact ⟨by rw [hstkt, hstkf, next_tok_stuck], by omega⟩
      · exact ⟨rfl, le_refl _⟩
    · intro s hc
      simp only [parse_simple_expr]
      obtain ⟨hstkf, hlef⟩ := ihterm s (by omega)
      obtain ⟨hstkt, hlet⟩ := ihsops (parse_term toks m s) (by omega)
      exact ⟨by rw [hstkt, hstkf], by omega⟩
    · intro s hc
      simp only [parse_expression]
      obtain ⟨hstk1, hle1⟩ := ihsexp s (by omega)
      split_ifs with h1
      · have hne : (cur_tok toks (parse_simple_expr toks m s)).kind ≠ ParserTokKind.PT_EOF := by
          rw [h1.1]; decide
        have hlt := cur_ne_eof_lt toks hlast _ hne
        have hinc := next_tok_inc toks _ hlt
        obtain ⟨hstk2, hle2⟩ := ihsexp (next_tok toks (parse_simple_expr toks m s)) (by omega)
        exact ⟨by rw [hstk2, next_tok_stuck, hstk1], by omega⟩
      · exact ⟨hstk1, hle1⟩
    · intro s hc
      simp only [parse_assign_no_semicolon]
      split_ifs with h1 h2 h3
      · have hne1 : (cur_tok toks s).kind ≠ ParserTokKind.PT_EOF := by rw [h1]; decide
        have hlt1 := cur_ne_eof_lt toks hlast s hne1
        have hinc1 := next_tok_inc toks s hlt1
        have hne2 : (cur_tok toks (next_tok toks s)).kind ≠ ParserTokKind.PT_EOF := by
          rw [h2.1]; decide
        have hlt2 := cur_ne_eof_lt toks hlast _ hne2
        have hinc2 := next_tok_inc toks _ hlt2
        obtain ⟨hstke, hlee⟩ := ihexpr (next_tok toks (next_tok toks s)) (by omega)
        exact ⟨by rw [hstke, next_tok_stuck, next_tok_stuck], by omega⟩
      · exact ⟨next_tok_stuck toks s, next_tok_le toks s⟩
      · exact ⟨rfl, le_refl _⟩
    · intro s hc
      simp only [parse_assign_stmt]
      split_ifs with h1 h2 h3 h4
      · have hne1 : (cur_tok toks s).kind ≠ ParserTokKind.PT_EOF := by rw [h1]; decide
        have hlt1 := cur_ne_eof_lt toks hlast s hne1
        have hinc1 := next_tok_inc toks s hlt1
        have hne2 : (cur_tok toks (next_tok toks s)).kind ≠ ParserTokKind.PT_EOF := by
          rw [h2.1]; decide
        have hlt2 := cur_ne_eof_lt toks hlast _ hne2
        have hinc2 := next_tok_inc toks _ hlt2
        obtain ⟨hstke, hlee⟩ := ihexpr (next_tok toks (next_tok toks s)) (by omega)
        obtain ⟨hstkx, hlex⟩ := hexp [';']
          (parse_expression toks m (next_tok toks (next_tok toks s))) (by omega)
        exact ⟨⟨by rw [hstkx, hstke, next_tok_stuck, next_tok_stuck], by omega⟩,
          fun _ => by omega⟩
      · have hne1 : (cur_tok toks s).kind ≠ ParserTokKind.PT_EOF := by rw [h1]; decide
        have hlt1 := cur_ne_eof_lt toks hlast s hne1
        have hinc1 := next_tok_inc toks s hlt1
        obtain ⟨hstke, hlee⟩ := ihexpr (syntax_error (next_tok toks s))
          (show 100 * (toks.length - (next_tok toks s).idx) + 4 < m by omega)
        have hsidx : (syntax_error (next_tok toks s)).idx = (next_tok toks s).idx := rfl
        obtain ⟨hstkx, hlex⟩ := hexp [';']
          (parse_expression toks m (syntax_error (next_tok toks s))) (by omega)
        exact ⟨⟨by rw [hstkx, hstke]; exact next_tok_stuck toks s, by omega⟩,
          fun _ => by omega⟩
      · have hne2 : (cur_tok toks (syntax_error s)).kind ≠ ParserTokKind.PT_EOF := by
          rw [h3.1]; decide
        have hlt2 := cur_ne_eof_lt toks hlast _ hne2
        have hinc2 := next_tok_inc toks _ hlt2
        have hsidx : (syntax_error s).idx = s.idx := rfl
        obtain ⟨hstke, hlee⟩ := ihexpr (next_tok toks (syntax_error s)) (by omega)
        obtain ⟨hstkx, hlex⟩ := hexp [';']
          (parse_expression toks m (next_tok toks (syntax_error s))) (by omega)
        refine ⟨⟨by rw [hstkx, hstke, next_tok_stuck]; rfl, by omega⟩, fun hg => absurd hg h1⟩
      · have hsidx : (syntax_error (syntax_error s)).idx = s.idx := rfl
        obtain ⟨hstke, hlee⟩ := ihexpr (syntax_error (syntax_error s))
          (show 100 * (toks.length - s.idx) + 4 < m by omega)
        obtain ⟨hstkx, hlex⟩ := hexp [';']
          (parse_expression toks m (syntax_error (syntax_error s))) (by omega)
        refine ⟨⟨by rw [hstkx, hstke]; rfl, by omega⟩, fun hg => absurd hg h1⟩
    · intro s hc hg
      simp only [parse_decl_stmt]
      have hlt := cur_ne_eof_lt toks hlast s hg
      have hinc := next_tok_inc toks s hlt
      split_ifs with h2
      · have hle2 := next_tok_le toks (next_tok toks s)
        obtain ⟨hstkx, hlex⟩ := hexp [';'] (next_tok toks (next_tok toks s)) (by omega)
        exact ⟨by rw [hstkx, next_tok_stuck, next_tok_stuck], by omega⟩
      · have hsidx : (syntax_error (next_tok toks s)).idx = (next_tok toks s).idx := rfl
        obtain ⟨hstkx, hlex⟩ := hexp [';'] (syntax_error (next_tok toks s)) (by omega)
        exact ⟨by rw [hstkx]; exact next_tok_stuck toks s, by omega⟩
    · intro s hc hg
      simp only [parse_input_stmt]
      have hlt := cur_ne_eof_lt toks hlast s hg
      have hinc := next_tok_inc toks s hlt
      split_ifs with h2
      · have hle2 := next_tok_le toks (next_tok toks s)
        obtain ⟨hstkx, hlex⟩ := hexp [';'] (next_tok toks (next_tok toks s)) (by omega)
        exact ⟨by rw [hstkx, next_tok_stuck, next_tok_stuck], by omega⟩
      · have hsidx : (syntax_error (next_tok toks s)).idx = (next_tok toks s).idx := rfl
        obtain ⟨hstkx, hlex⟩ := hexp [';'] (syntax_error (next_tok toks s)) (by omega)
        exact ⟨by rw [hstkx]; exact next_tok_stuck toks s, by omega⟩
    · intro s hc hg
      simp only [parse_print_stmt]
      have hlt := cur_ne_eof_lt toks hlast s hg
      have hinc := next_tok_inc toks s hlt
      obtain ⟨hstke, hlee⟩ := ihexpr (next_tok toks s) (by omega)
      obtain ⟨hstkx, hlex⟩ := hexp [';'] (parse_expression toks m (next_tok toks s))
        (by omega)
      exact ⟨by rw [hstkx, hstke, next_tok_stuck], by omega⟩
    · intro s hc hg
      simp only [parse_if_stmt]
      have hlt := cur_ne_eof_lt toks hlast s hg
      have hinc := next_tok_inc toks s hlt
      obtain ⟨hstk2, hle2⟩ := hexp ['('] (next_tok toks s) (by omega)
      obtain ⟨hstk3, hle3⟩ := ihexpr (expect_symbol toks m ['('] (next_tok toks s))
        (by omega)
      obtain ⟨hstk4, hle4⟩ := hexp [')']
        (parse_expression toks m (expect_symbol toks m ['('] (next_tok toks s))) (by omega)
      obtain ⟨hstk5, hle5⟩ := ihbl (expect_symbol toks m [')']
        (parse_expression toks m (expect_symbol toks m ['('] (next_tok toks s)))) (by omega)
      split_ifs with h1
      · have hne6 : (cur_tok toks (parse_block toks m (expect_symbol toks m [')']
            (parse_expression toks m (expect_symbol toks m ['(']
              (next_tok toks s)))))).kind ≠ ParserTokKind.PT_EOF := by rw [h1.1]; decide
        have hlt6 := cur_ne_eof_lt toks hlast _ hne6
        have hinc6 := next_tok_inc toks _ hlt6
        obtain ⟨hstk7, hle7⟩ := ihbl (next_tok toks (parse_block toks m (expect_symbol toks m
          [')'] (parse_expression toks m (expect_symbol toks m ['(']
            (next_tok toks s)))))) (by omega)
        exact ⟨by rw [hstk7, next_tok_stuck, hstk5, hstk4, hstk3, hstk2, next_tok_stuck],
          by omega⟩
      · exact ⟨by rw [hstk5, hstk4, hstk3, hstk2, next_tok_stuck], by omega⟩
    · intro s hc hg
      simp only [parse_while_stmt]
      have hlt := cur_ne_eof_lt toks hlast s hg
      have hinc := next_tok_inc toks s hlt
      obtain ⟨hstk2, hle2⟩ := hexp ['('] (next_tok toks s) (by omega)
      obtain ⟨hstk3, hle3⟩ := ihexpr (expect_symbol toks m ['('] (next_tok toks s))
        (by omega)
      obtain ⟨hstk4, hle4⟩ := hexp [')']
        (parse_expression toks m (expect_symbol toks m ['('] (next_tok toks s))) (by omega)
      obtain ⟨hstk5, hle5⟩ := ihbl (expect_symbol toks m [')']
        (parse_expression toks m (expect_symbol toks m ['('] (next_tok toks s)))) (by omega)
      exact ⟨by rw [hstk5, hstk4, hstk3, hstk2, next_tok_stuck], by omega⟩
    · intro s hc hg
      simp only [parse_for_stmt]
      have hlt := cur_ne_eof_lt toks hlast s hg
      have hinc := next_tok_inc toks s hlt
      obtain ⟨hstk2, hle2⟩ := hexp ['('] (next_tok toks s) (by omega)
      obtain ⟨⟨hstk3, hle3⟩, _⟩ := ihas (expect_symbol toks m ['('] (next_tok toks s))
        (by omega)
      obtain ⟨hstk4, hle4⟩ := ihexpr (parse_assign_stmt toks m
        (expect_symbol toks m ['('] (next_tok toks s))) (by omega)
      obtain ⟨hstk5, hle5⟩ := hexp [';'] (parse_expression toks m (parse_assign_stmt toks m
        (expect_symbol toks m ['('] (next_tok toks s)))) (by omega)
      obtain ⟨hstk6, hle6⟩ := ihans (expect_symbol toks m [';'] (parse_expression toks m
        (parse_assign_stmt toks m (expect_symbol toks m ['('] (next_tok toks s)))))
        (by omega)
      obtain ⟨hstk7, hle7⟩ := hexp [')'] (parse_assign_no_semicolon toks m
        (expect_symbol toks m [';'] (parse_expression toks m (parse_assign_stmt toks m
          (expect_symbol toks m ['('] (next_tok toks s)))))) (by omega)
      obtain ⟨hstk8, hle8⟩ := ihbl (expect_symbol toks m [')']
        (parse_assign_no_semicolon toks m (expect_symbol toks m [';'] (parse_expression
          toks m (parse_assign_stmt toks m (expect_symbol toks m ['(']
            (next_tok toks s))))))) (by omega)
      exact ⟨by rw [hstk8, hstk7, hstk6, hstk5, hstk4, hstk3, hstk2, next_tok_stuck],
        by omega⟩
    · intro s hc
      simp only [parse_statement]
      split_ifs with h1 h2 h3 h4 h5 h6 h7
      · obtain ⟨hstk, hlt⟩ := ihdecl s (by omega) (by rw [h1]; decide)
        exact ⟨⟨hstk, le_of_lt hlt⟩, fun _ => hlt⟩
      · obtain ⟨hstk, hlt⟩ := ihinp s (by omega) (by rw [h2.1]; decide)
        exact ⟨⟨hstk, le_of_lt hlt⟩, fun _ => hlt⟩
      · obtain ⟨hstk, hlt⟩ := ihpr s (by omega) (by rw [h3.1]; decide)
        exact ⟨⟨hstk, le_of_lt hlt⟩, fun _ => hlt⟩
      · obtain ⟨hstk, hlt⟩ := ihif s (by omega) (by rw [h4.1]; decide)
        exact ⟨⟨hstk, le_of_lt hlt⟩, fun _ => hlt⟩
      · obtain ⟨hstk, hlt⟩ := ihwh s (by omega) (by rw [h5.1]; decide)
        exact ⟨⟨hstk, le_of_lt hlt⟩, fun _ => hlt⟩
      · obtain ⟨hstk, hlt⟩ := ihfor s (by omega) (by rw [h6.1]; decide)
        exact ⟨⟨hstk, le_of_lt hlt⟩, fun _ => hlt⟩
      · obtain ⟨⟨hstk, hle⟩, hstr⟩ := ihas s (by omega)
        exact ⟨⟨hstk, hle⟩, fun _ => hstr h7⟩
      · obtain ⟨hstk, hle, hstr⟩ := ihpan (syntax_error s)
          (show 100 * (toks.length - s.idx) < m by omega)
        exact ⟨⟨hstk, hle⟩, fun hg => hstr (by rw [cur_tok_syntax_error]; exact hg)⟩
    · intro s hc
      simp only [parse_block_stmts]
      split_ifs with h1
      · obtain ⟨⟨hstks, hles⟩, hstr⟩ := ihstmt s (by omega)
        have hstrict := hstr h1.1
        have hlt := cur_ne_eof_lt toks hlast s h1.1
        obtain ⟨hstk2, hle2⟩ := ihbs (parse_statement toks m s) (by omega)
        exact ⟨by rw [hstk2, hstks], by omega⟩
      · exact ⟨rfl, le_refl _⟩
    · intro s hc
      simp only [parse_block]
      split_ifs with h1
      · have hne : (cur_tok toks s).kind ≠ ParserTokKind.PT_EOF := by rw [h1.1]; decide
        have hlt := cur_ne_eof_lt toks hlast s hne
        have hinc := next_tok_inc toks s hlt
        obtain ⟨hstk2, hle2⟩ := ihbs (next_tok toks s) (by omega)
        obtain ⟨hstk3, hle3⟩ := hexp ['\x7d'] (parse_block_stmts toks m (next_tok toks s))
          (by omega)
        exact ⟨by rw [hstk3, hstk2, next_tok_stuck], by omega⟩
      · obtain ⟨⟨hstks, hles⟩, _⟩ := ihstmt s (by omega)
        exact ⟨hstks, hles⟩
    · intro s hc
      simp only [parse_stmt_list]
      split_ifs with h1
      · obtain ⟨⟨hstks, hles⟩, hstr⟩ := ihstmt s (by omega)
        have hstrict := hstr h1
        have hlt := cur_ne_eof_lt toks hlast s h1
        obtain ⟨hstk2, hle2⟩ := ihsl (parse_statement toks m s) (by omega)
        exact ⟨by rw [hstk2, hstks], by omega⟩
      · exact ⟨rfl, le_refl _⟩
    · intro s hc
      simp only [parse_program]
      obtain ⟨hstks, hles⟩ := ihsl s (by omega)
      exact ⟨hstks, hles⟩

end

/-- C4: parsing a loaded token stream whose last token has kind eof
always completes.  First conjunct: whenever parse_statement is entered
with the current token not eof (and fuel at least linear in the tokens
remaining, which the second conjunct shows is enough for the whole
parse), the token index is strictly greater on return — panic recovery
consumes at least one token — so the statement-list loop runs at most
once per remaining token.  Second conjunct: with fuel 100·|toks|+10 the
whole parse finishes without exhausting fuel (the stuck flag, the
model's marker for a run that would loop, stays false), even when every
statement is malformed. -/
theorem C4_parser_progress_and_completion (toks : List ParserToken)
    (hlast : toks.getLast?.map ParserToken.kind = some ParserTokKind.PT_EOF) :
    (∀ n s, 100 * (toks.length - s.idx) + 6 < n →
      (cur_tok toks s).kind ≠ ParserTokKind.PT_EOF →
      s.idx < (parse_statement toks n s).idx) ∧
    (∀ n, 100 * toks.length + 9 < n → (parse_program toks n startState).stuck = false) := by
  constructor
  · intro n s hn hg
    obtain ⟨_, _, _, _, _, _, _, _, _, _, _, _, _, _, _, hstmt, _, _, _, _⟩ :=
      parse_fuel toks hlast n
    exact (hstmt s hn).2 hg
  · intro n hn
    obtain ⟨_, _, _, _, _, _, _, _, _, _, _, _, _, _, _, _, _, _, _, hprog⟩ :=
      parse_fuel toks hlast n
    exact (hprog startState (show 100 * (toks.length - 0) + 9 < n by omega)).1

theorem C4_parser_progress_and_completion_witness :
    (([{ kind := ParserTokKind.PT_UNKNOWN, lexeme := [] }, eofTok] : List ParserToken).getLast?.map ParserToken.kind = some ParserTokKind.PT_EOF) ∧
    startState.idx < (parse_statement [{ kind := ParserTokKind.PT_UNKNOWN, lexeme := [] }, eofTok] 230 startState).idx ∧
    (parse_program [{ kind := ParserTokKind.PT_UNKNOWN, lexeme := [] }, eofTok] 230 startState).stuck = false := by
  refine ⟨by decide, ?_, ?_⟩
  · exact (C4_parser_progress_and_completion
      [{ kind := ParserTokKind.PT_UNKNOWN, lexeme := [] }, eofTok] (by decide)).1 230
      startState (by decide) (by decide)
  · exact (C4_parser_progress_and_completion
      [{ kind := ParserTokKind.PT_UNKNOWN, lexeme := [] }, eofTok] (by decide)).2 230
      (by decide)

end KSharpParse
